import Mathlib

/-!
Shallow embedding of the runtime support layer of a conversational commerce
assistant: the token-budget context trimmer, the bounded response shaper with
its relevance scorer, the background persistence handler, the EWMA latency
tracker, and the per-session structured state store.

Modelling conventions: Python floats are modelled as exact rationals where
only magnitudes and orderings matter (token estimates, relevance scores,
whose reachable float values are order- and tie-faithful to the rationals);
where an exact float equality is at stake — the EWMA latency blend — IEEE
binary64 arithmetic is modelled exactly, as rationals rounded to 53
significant bits with round-to-nearest, ties-to-even. Python ints and string
lengths are naturals/integers; Python dicts and lists appear as pure values
except in the session-state store, where an explicit heap of objects models
reference/copy semantics. `str.lower()` is modelled per
character with `Char.toLower` and `str.split()` splits on ASCII whitespace
runs; both agree with the Python behaviour on the inputs considered here.
-/

/-! ### Context trimmer (`filter_llm_request_contents`) -/

/-- One part of a conversational turn; `text` is `none` for non-text parts. -/
structure ContentPart where
  text : Option String
  deriving DecidableEq

/-- One role-tagged turn of the conversation history. -/
structure Content where
  role : String
  parts : List ContentPart
  deriving DecidableEq

/-- `estimate_tokens`: `max(1, len(text) // 3.7)` with empty text giving 0. -/
def estimate_tokens (text : String) : ℕ :=
  if text = "" then 0 else max 1 (text.length * 10 / 37)

/-- Token estimate of one part (`if p.text: total += estimate_tokens(p.text)`;
skipping an empty text and adding its 0 estimate coincide). -/
def partTokens (p : ContentPart) : ℕ :=
  match p.text with
  | some txt => estimate_tokens txt
  | Option.none => 0

/-- `_contents_tokens`: total token estimate of a content list. -/
def contentsTokens (cs : List Content) : ℕ :=
  (cs.map (fun c => (c.parts.map partTokens).sum)).sum

/-- Accumulating loop of the invocation partition: a group is closed each time
a `model`-role turn is appended; a trailing open group forms its own group. -/
def splitAux (cur : List Content) : List Content → List (List Content)
  | [] => if cur.isEmpty then [] else [cur]
  | c :: rest =>
    if c.role = "model" then (cur ++ [c]) :: splitAux [] rest
    else splitAux (cur ++ [c]) rest

/-- Partition of a content list into whole invocations. -/
def splitInvocations (contents : List Content) : List (List Content) :=
  splitAux [] contents

/-- `invocations[-num_invocations_to_keep:] if num_invocations_to_keep > 0
else invocations`. -/
def keptInvocationsOf (contents : List Content) (numKeep : ℕ) :
    List (List Content) :=
  let invocations := splitInvocations contents
  if 0 < numKeep then invocations.drop (invocations.length - numKeep)
  else invocations

/-- `_shrink_content`: drop non-text parts; truncate text longer than
`max_part_chars` and append the truncation marker. -/
def shrinkContent (maxPartChars : ℕ) (c : Content) : Content :=
  Content.mk c.role (c.parts.filterMap (fun p =>
    match p.text with
    | Option.none => Option.none
    | some txt =>
      some (ContentPart.mk
        (some (if maxPartChars < txt.length then txt.take maxPartChars ++ "…"
               else txt)))))

/-- The kept invocations, flattened and shrunk: the sequence the budget loop
then works on. -/
def shrunkKeptOf (contents : List Content) (numKeep maxPartChars : ℕ) :
    List Content :=
  ((keptInvocationsOf contents numKeep).flatten).map (shrinkContent maxPartChars)

/-- `while pruned and _contents_tokens(pruned) > token_budget:
pruned.pop(0)` — evicts single contents from the oldest side. -/
def pruneOldest (budget : ℕ) : List Content → List Content
  | [] => []
  | c :: rest =>
    if contentsTokens (c :: rest) ≤ budget then c :: rest
    else pruneOldest budget rest

/-- `ContextOptimizedToolWrapper.filter_llm_request_contents`. -/
def filter_llm_request_contents (contents : List Content)
    (numKeep budget maxPartChars : ℕ) : List Content :=
  if contents.isEmpty then contents
  else
    let shrunk := shrunkKeptOf contents numKeep maxPartChars
    if contentsTokens shrunk ≤ budget then shrunk
    else pruneOldest budget shrunk

/-- Boolean used to state when a part survives shrinking unchanged: a text
part no longer than `maxPartChars`. -/
def partShortText (maxPartChars : ℕ) (p : ContentPart) : Bool :=
  match p.text with
  | some txt => decide (txt.length ≤ maxPartChars)
  | Option.none => false

/-! ### Relevance scorer (`_calculate_product_relevance`) -/

/-- A raw product record, with the dict lookups
`product.get("name", "")` etc. modelled as fields defaulting to `""`. -/
structure ProductR where
  id : String
  name : String
  priceCurrent : Int
  imageUrl : String
  productUrl : String
  category : String
  sku : String
  deriving DecidableEq

/-- `str.lower()` as a character list. -/
def pyLower (s : String) : List Char := s.toList.map Char.toLower

/-- Python substring test `needle in hay` on character lists. -/
def containsSub (needle : List Char) : List Char → Bool
  | [] => needle.isEmpty
  | c :: rest => needle.isPrefixOf (c :: rest) || containsSub needle rest

/-- Accumulator loop for `str.split()`: split on whitespace runs, no empty
words. -/
def wordsAux (acc : List Char) : List Char → List (List Char)
  | [] => if acc.isEmpty then [] else [acc.reverse]
  | c :: cs =>
    if c.isWhitespace then
      (if acc.isEmpty then wordsAux [] cs else acc.reverse :: wordsAux [] cs)
    else wordsAux (c :: acc) cs

/-- `query_lower.split()`. -/
def pyWords (s : List Char) : List (List Char) := wordsAux [] s

/-- The name contribution of `_calculate_product_relevance`: `if query in
name: +1.0 elif any(word in name): +0.5` — an if/elif chain. -/
def nameScore (product : ProductR) (user_query : String) : ℚ :=
  if user_query = "" then 0
  else
    let ql := pyLower user_query
    let nm := pyLower product.name
    if nm.isEmpty then 0
    else if containsSub ql nm then 1
    else if (pyWords ql).any (fun w => containsSub w nm) then 1/2
    else 0

/-- The category contribution: `+0.3` on query-token overlap. -/
def categoryScore (product : ProductR) (user_query : String) : ℚ :=
  if user_query = "" then 0
  else
    let ql := pyLower user_query
    let ct := pyLower product.category
    if !ct.isEmpty && (pyWords ql).any (fun w => containsSub w ct) then 3/10
    else 0

/-- The SKU contribution: `+0.8` when the query is a substring of the SKU. -/
def skuScore (product : ProductR) (user_query : String) : ℚ :=
  if user_query = "" then 0
  else
    let ql := pyLower user_query
    let sk := pyLower product.sku
    if !sk.isEmpty && containsSub ql sk then 4/5 else 0

/-- `_calculate_product_relevance` (an empty product dict behaves exactly like
one whose fields all default to `""`, so the `not product` guard is absorbed
by the per-field emptiness guards). -/
def calcProductRelevance (product : ProductR) (user_query : String) : ℚ :=
  if user_query = "" then 0
  else
    let ql := pyLower user_query
    let nm := pyLower product.name
    let s1 : ℚ :=
      if nm.isEmpty then 0
      else if containsSub ql nm then 1
      else if (pyWords ql).any (fun w => containsSub w nm) then 1/2
      else 0
    let ct := pyLower product.category
    let s2 : ℚ :=
      if !ct.isEmpty && (pyWords ql).any (fun w => containsSub w ct) then 3/10
      else 0
    let sk := pyLower product.sku
    let s3 : ℚ := if !sk.isEmpty && containsSub ql sk then 4/5 else 0
    s1 + s2 + s3

/-! ### Response shaper (`optimize_search_response`) -/

/-- A minimal product record as built by `_create_minimal_product`; the
`image` and `category` fields become `none` when `_further_reduce_response`
deletes the corresponding keys. -/
structure MinimalProduct where
  id : String
  name : String
  priceCurrent : Int
  image : Option String
  productUrl : String
  category : Option String
  deriving DecidableEq

/-- `_create_minimal_product`. -/
def createMinimalProduct (p : ProductR) : MinimalProduct :=
  MinimalProduct.mk p.id p.name p.priceCurrent (some p.imageUrl)
    p.productUrl (some p.category)

/-- Python `list.sort(key=score, reverse=True)` is a stable descending sort;
insertion step: place `a` before the first element with strictly smaller
score, after all earlier elements with an equal or larger score. -/
def insertByScore {α : Type} (a : α × ℚ) : List (α × ℚ) → List (α × ℚ)
  | [] => [a]
  | b :: l => if b.2 ≤ a.2 then a :: b :: l else b :: insertByScore a l

/-- Stable descending sort by score. -/
def sortByScoreDesc {α : Type} : List (α × ℚ) → List (α × ℚ)
  | [] => []
  | a :: l => insertByScore a (sortByScoreDesc l)

/-- `_select_essential_products`. -/
def selectEssentialProducts (products : List ProductR) (user_query : String)
    (maxProducts : ℕ) : List MinimalProduct :=
  if products.isEmpty then []
  else
    ((sortByScoreDesc
        (products.map (fun p => (p, calcProductRelevance p user_query)))).take
      maxProducts).map (fun pr => createMinimalProduct pr.1)

/-- The `search_metadata` sub-dict of the search payload. -/
structure SearchMeta where
  total : String
  searchType : String
  showing : ℕ
  deriving DecidableEq

/-- The search payload handed to `optimize_search_response`, with the
defaulting dict lookups flattened into fields. -/
structure SearchData where
  products : List ProductR
  total : String
  searchType : String
  deriving DecidableEq

/-- Shape of the JSON object `optimize_search_response` serializes. -/
inductive SearchResponse where
  | noResults (message : String)
  | productDisplay (message : String) (products : List MinimalProduct)
      (metadata : SearchMeta)
  deriving DecidableEq

/-- The item list carried by a response; the no-results sentinel carries
none. -/
def SearchResponse.items : SearchResponse → List MinimalProduct
  | SearchResponse.noResults _ => []
  | SearchResponse.productDisplay _ ps _ => ps

/-- A single-quote character as a string (U+0027). -/
def squote : String := String.singleton (Char.ofNat 39)

/-- JSON escaping of one character (`json.dumps` with
`ensure_ascii=False`). -/
def jsonEscapeChar (c : Char) : String :=
  if c = Char.ofNat 34 then "\\\""
  else if c = Char.ofNat 92 then "\\\\"
  else if c = Char.ofNat 10 then "\\n"
  else if c = Char.ofNat 9 then "\\t"
  else if c = Char.ofNat 13 then "\\r"
  else String.singleton c

/-- JSON escaping of a string. -/
def jsonEscape (s : String) : String :=
  String.join (s.toList.map jsonEscapeChar)

/-- A JSON-quoted string. -/
def jqs (s : String) : String := "\"" ++ jsonEscape s ++ "\""

/-- Serialization of one minimal product, key order as inserted; deleted keys
are omitted. -/
def jsonMinimalProduct (m : MinimalProduct) : String :=
  "\x7b" ++ jqs "id" ++ ": " ++ jqs m.id ++ ", " ++ jqs "name" ++ ": "
    ++ jqs m.name ++ ", " ++ jqs "price" ++ ": \x7b" ++ jqs "current" ++ ": "
    ++ toString m.priceCurrent ++ ", " ++ jqs "currency" ++ ": " ++ jqs "VND"
    ++ "\x7d"
    ++ (match m.image with
        | some u => ", " ++ jqs "image" ++ ": \x7b" ++ jqs "url" ++ ": "
            ++ jqs u ++ "\x7d"
        | Option.none => "")
    ++ ", " ++ jqs "productUrl" ++ ": " ++ jqs m.productUrl
    ++ (match m.category with
        | some c => ", " ++ jqs "category" ++ ": " ++ jqs c
        | Option.none => "")
    ++ "\x7d"

/-- `json.dumps(response, ensure_ascii=False)` for the two response shapes. -/
def jsonDumpsResponse : SearchResponse → String
  | SearchResponse.noResults m =>
    "\x7b" ++ jqs "type" ++ ": " ++ jqs "no-results" ++ ", " ++ jqs "message"
      ++ ": " ++ jqs m ++ "\x7d"
  | SearchResponse.productDisplay msg ps md =>
    "\x7b" ++ jqs "type" ++ ": " ++ jqs "product-display" ++ ", "
      ++ jqs "message" ++ ": " ++ jqs msg ++ ", " ++ jqs "products" ++ ": ["
      ++ String.intercalate ", " (ps.map jsonMinimalProduct) ++ "]"
      ++ ", " ++ jqs "metadata" ++ ": \x7b" ++ jqs "total" ++ ": "
      ++ jqs md.total ++ ", " ++ jqs "type" ++ ": " ++ jqs md.searchType
      ++ ", " ++ jqs "showing" ++ ": " ++ toString md.showing ++ "\x7d\x7d"

/-- Field-reduction applied to one product by `_further_reduce_response`:
delete the `category` key, delete an `image` key whose url is empty. -/
def reduceProductFields (m : MinimalProduct) : MinimalProduct :=
  MinimalProduct.mk m.id m.name m.priceCurrent
    (match m.image with
     | some u => if u = "" then Option.none else some u
     | Option.none => Option.none)
    m.productUrl Option.none

/-- `_further_reduce_response`: one reduction pass — cap at 10 items (with a
message change), drop `category`, drop empty `image`. -/
def furtherReduceResponse (r : SearchResponse) : SearchResponse :=
  match r with
  | SearchResponse.noResults m => SearchResponse.noResults m
  | SearchResponse.productDisplay msg ps md =>
    let ps1 := if 10 < ps.length then ps.take 10 else ps
    let msg1 :=
      if 10 < ps.length then
        "Tìm thấy " ++ toString ps1.length
          ++ " sản phẩm phù hợp (hiển thị top 10)"
      else msg
    SearchResponse.productDisplay msg1 (ps1.map reduceProductFields) md

/-- The structured value `optimize_search_response` builds before
serializing; `maxOut` is `self.max_output_tokens`. -/
def buildSearchResponse (search_data : SearchData) (user_query : String)
    (maxOut : ℕ) : SearchResponse :=
  if search_data.products.isEmpty then
    SearchResponse.noResults
      ("Không tìm thấy sản phẩm phù hợp với " ++ squote ++ user_query ++ squote)
  else
    let essential := selectEssentialProducts search_data.products user_query 10
    let resp := SearchResponse.productDisplay
      ("Tìm thấy " ++ toString essential.length ++ " sản phẩm phù hợp")
      essential
      (SearchMeta.mk search_data.total search_data.searchType essential.length)
    if maxOut < estimate_tokens (jsonDumpsResponse resp) then
      furtherReduceResponse resp
    else resp

/-- `optimize_search_response` (the returned JSON string). -/
def optimize_search_response (search_data : SearchData) (user_query : String)
    (maxOut : ℕ) : String :=
  jsonDumpsResponse (buildSearchResponse search_data user_query maxOut)

/-! ### Background persistence (`_handle_dialog_summary_item`, worker loop) -/

/-- A queued dialog-summary persistence job. -/
structure DialogJob where
  session_id : String
  user_question : String
  agent_answer : String
  intent : String
  deriving DecidableEq

/-- Observable trace of handling one job: which collaborator writes were
attempted and whether a warning was logged. -/
structure HandleTrace where
  artifactAttempted : Bool
  relationalAttempted : Bool
  warnedFailure : Bool
  deriving DecidableEq

/-- `_handle_dialog_summary_item`: a single `try` block wraps
`write_json_artifact` followed by `save_dialog`; any exception is caught,
logged and swallowed. The collaborator outcomes are passed in as `Except`
values. -/
def handleDialogSummaryItem (artifactWrite : Except String String)
    (relationalWrite : Except String Unit) : HandleTrace :=
  match artifactWrite with
  | Except.error _ => HandleTrace.mk true false true
  | Except.ok _ =>
    match relationalWrite with
    | Except.error _ => HandleTrace.mk true true true
    | Except.ok _ => HandleTrace.mk true true false

/-- One iteration of the worker loop: pop the head job (if any) and handle
it; the job is never re-queued. -/
def workerStep (artifactWrite : Except String String)
    (relationalWrite : Except String Unit) :
    List DialogJob → List DialogJob × Option HandleTrace
  | [] => ([], Option.none)
  | _ :: rest =>
    (rest, some (handleDialogSummaryItem artifactWrite relationalWrite))

/-! ### EWMA latency tracker (`_update_ewma_latency`) -/

/-- The module-level latency statistic: `_ewma_latency_seconds` and
`_total_runs`. Stored values are IEEE binary64 numbers represented as exact
rationals. -/
structure LatencyStatState where
  ewmaLatencySeconds : Option ℚ
  totalRuns : ℕ
  deriving DecidableEq

/-- Round a rational to the nearest integer, ties to even (the IEEE default
rounding). -/
def rne (q : ℚ) : ℤ :=
  if q - ⌊q⌋ < 1/2 then ⌊q⌋
  else if 1/2 < q - ⌊q⌋ then ⌊q⌋ + 1
  else if ⌊q⌋ % 2 = 0 then ⌊q⌋ else ⌊q⌋ + 1

/-- The IEEE binary64 value nearest a rational, as an exact rational: the
significand is rounded to 53 bits at the value's binade, round to nearest,
ties to even (normal range; overflow and subnormals do not arise here). -/
def fl64 (x : ℚ) : ℚ :=
  if x = 0 then 0
  else if 0 < x then
    (rne (x * 2 ^ ((52 : ℤ) - Int.log 2 x)) : ℚ) * 2 ^ (Int.log 2 x - 52)
  else
    -((rne ((-x) * 2 ^ ((52 : ℤ) - Int.log 2 (-x))) : ℚ)
        * 2 ^ (Int.log 2 (-x) - 52))

/-- `_ewma_alpha = 0.3`: the binary64 number the Python literal `0.3`
denotes (slightly below 3/10). -/
def ewmaAlpha64 : ℚ := fl64 (3/10)

/-- `_update_ewma_latency`, with every float operation of
`_ewma_alpha * elapsed_seconds + (1 - _ewma_alpha) * _ewma_latency_seconds`
rounding its exact result to the nearest binary64 value; the first call
stores `elapsed` unrounded (plain assignment). -/
def updateEwmaLatency64 (s : LatencyStatState) (elapsed : ℚ) :
    LatencyStatState :=
  LatencyStatState.mk
    (match s.ewmaLatencySeconds with
     | Option.none => some elapsed
     | some w => some (fl64 (fl64 (ewmaAlpha64 * elapsed)
         + fl64 (fl64 (1 - ewmaAlpha64) * w))))
    (s.totalRuns + 1)

/-! ### Session state store (`session_state.py`), over an explicit heap

Python dicts and lists are heap objects referenced by address; the ADK state
mapping is itself a dict object. `dict(x)` / `list(x)` allocate a fresh
object with the same top-level entries (a shallow copy). -/

/-- A Python value: scalars are immediate, dicts/lists are references to
heap addresses (naturals). -/
inductive PVal where
  | s (v : String)
  | i (n : Int)
  | f (q : ℚ)
  | none
  | ref (a : ℕ)
  deriving DecidableEq

/-- A heap object. -/
inductive PObj where
  | dict (entries : List (String × PVal))
  | list (elems : List PVal)
  deriving DecidableEq

/-- The heap: address = index, allocation appends. -/
abbrev PyHeap := List PObj

/-- Heap read. -/
def hget : PyHeap → ℕ → Option PObj
  | [], _ => Option.none
  | o :: _, 0 => some o
  | _ :: t, Nat.succ a => hget t a

/-- Heap write (no-op out of range). -/
def hset : PyHeap → ℕ → PObj → PyHeap
  | [], _, _ => []
  | _ :: t, 0, o => o :: t
  | x :: t, Nat.succ a, o => x :: hset t a o

/-- Allocation of a fresh object. -/
def halloc (h : PyHeap) (o : PObj) : PyHeap × ℕ := (h ++ [o], h.length)

/-- Insertion-ordered dict lookup. -/
def dget : List (String × PVal) → String → Option PVal
  | [], _ => Option.none
  | (k0, v) :: rest, k => if k0 = k then some v else dget rest k

/-- Insertion-ordered dict update: an existing key keeps its position, a new
key is appended. -/
def dset : List (String × PVal) → String → PVal → List (String × PVal)
  | [], k, v => [(k, v)]
  | (k0, v0) :: rest, k, v =>
    if k0 = k then (k0, v) :: rest else (k0, v0) :: dset rest k v

/-- `state[a][k]` when `a` holds a dict. -/
def hdictGet (h : PyHeap) (a : ℕ) (k : String) : Option PVal :=
  match hget h a with
  | some (PObj.dict es) => dget es k
  | _ => Option.none

/-- `state[a][k] = v` when `a` holds a dict. -/
def hdictSet (h : PyHeap) (a : ℕ) (k : String) (v : PVal) : PyHeap :=
  match hget h a with
  | some (PObj.dict es) => hset h a (PObj.dict (dset es k v))
  | _ => h

/-- `SESSION_ROOT_KEY`. -/
def SESSION_ROOT_KEY : String := "mmvn_session"

/-- Default builder: a fresh empty dict. -/
def mkEmptyDict (h : PyHeap) : PyHeap × PVal :=
  let r := halloc h (PObj.dict [])
  (r.1, PVal.ref r.2)

/-- Default builder for `pagination`: `{"page": 1, "page_size": 10}`. -/
def mkPagination (h : PyHeap) : PyHeap × PVal :=
  let r := halloc h (PObj.dict [("page", PVal.i 1), ("page_size", PVal.i 10)])
  (r.1, PVal.ref r.2)

/-- Default builder for `temp_cart`: `{"items": []}`. -/
def mkTempCart (h : PyHeap) : PyHeap × PVal :=
  let rl := halloc h (PObj.list [])
  let rd := halloc rl.1 (PObj.dict [("items", PVal.ref rl.2)])
  (rd.1, PVal.ref rd.2)

/-- `session.setdefault(k, default)`: keep the key if present (whatever its
value), otherwise build the default and store it. -/
def setdefaultSection (hs : PyHeap × ℕ) (k : String)
    (mk : PyHeap → PyHeap × PVal) : PyHeap × ℕ :=
  match hdictGet hs.1 hs.2 k with
  | some _ => hs
  | Option.none =>
    let r := mk hs.1
    (hdictSet r.1 hs.2 k r.2, hs.2)

/-- The root step of `_ensure_session_dict`: if `SESSION_ROOT_KEY` is missing
or not bound to a dict object, bind it to a fresh empty dict. -/
def ensureRoot (h : PyHeap) (st : ℕ) (es : List (String × PVal)) :
    PyHeap × ℕ :=
  match dget es SESSION_ROOT_KEY with
  | some (PVal.ref a) =>
    match hget h a with
    | some (PObj.dict _) => (h, a)
    | _ =>
      let r := halloc h (PObj.dict [])
      (hdictSet r.1 st SESSION_ROOT_KEY (PVal.ref r.2), r.2)
  | _ =>
    let r := halloc h (PObj.dict [])
    (hdictSet r.1 st SESSION_ROOT_KEY (PVal.ref r.2), r.2)

/-- The fixed section keys initialized by `_ensure_session_dict`, in
insertion order. -/
def sessionSectionKeys : List String :=
  ["current_search", "pagination", "preferences", "context", "temp_cart",
   "timestamps", "artifacts"]

/-- `_ensure_session_dict`: `none` only when the state address does not hold
a dict (the ADK state is always a dict). -/
def ensureSessionDict (h : PyHeap) (st : ℕ) : Option (PyHeap × ℕ) :=
  match hget h st with
  | some (PObj.dict es) =>
    some (setdefaultSection (setdefaultSection (setdefaultSection
      (setdefaultSection (setdefaultSection (setdefaultSection
        (setdefaultSection (ensureRoot h st es)
          "current_search" mkEmptyDict)
        "pagination" mkPagination)
      "preferences" mkEmptyDict)
      "context" mkEmptyDict)
      "temp_cart" mkTempCart)
      "timestamps" mkEmptyDict)
      "artifacts" mkEmptyDict)
  | _ => Option.none

/-- `dict(session.get(k, \x7b\x7d))`: shallow-copy the section dict into a
fresh object and return its address (`none` on a non-dict section value,
where Python would raise a TypeError — not a missing-key error). -/
def getSectionCopy (k : String) (h : PyHeap) (st : ℕ) :
    Option (PyHeap × ℕ) :=
  match ensureSessionDict h st with
  | Option.none => Option.none
  | some (h1, sa) =>
    match hdictGet h1 sa k with
    | Option.none => some (halloc h1 (PObj.dict []))
    | some (PVal.ref a) =>
      match hget h1 a with
      | some (PObj.dict es) => some (halloc h1 (PObj.dict es))
      | _ => Option.none
    | some _ => Option.none

/-- `get_current_search`. -/
def get_current_search (h : PyHeap) (st : ℕ) : Option (PyHeap × ℕ) :=
  getSectionCopy "current_search" h st

/-- `get_pagination`. -/
def get_pagination (h : PyHeap) (st : ℕ) : Option (PyHeap × ℕ) :=
  getSectionCopy "pagination" h st

/-- `get_preferences`. -/
def get_preferences (h : PyHeap) (st : ℕ) : Option (PyHeap × ℕ) :=
  getSectionCopy "preferences" h st

/-- `get_conversation_context`. -/
def get_conversation_context (h : PyHeap) (st : ℕ) :
    Option (PyHeap × ℕ) :=
  getSectionCopy "context" h st

/-- `get_cart_items`: `list(session.get("temp_cart", \x7b\x7d).get("items",
[]))` — a shallow copy of the cart list. -/
def get_cart_items (h : PyHeap) (st : ℕ) : Option (PyHeap × ℕ) :=
  match ensureSessionDict h st with
  | Option.none => Option.none
  | some (h1, sa) =>
    match hdictGet h1 sa "temp_cart" with
    | Option.none => some (halloc h1 (PObj.list []))
    | some (PVal.ref a) =>
      match hget h1 a with
      | some (PObj.dict es) =>
        match dget es "items" with
        | Option.none => some (halloc h1 (PObj.list []))
        | some (PVal.ref la) =>
          match hget h1 la with
          | some (PObj.list xs) => some (halloc h1 (PObj.list xs))
          | _ => Option.none
        | some _ => Option.none
      | _ => Option.none
    | some _ => Option.none

/-- `get_artifact_refs`: `list(session.get("artifacts",
\x7b\x7d).get(category, []))`. -/
def get_artifact_refs (h : PyHeap) (st : ℕ) (category : String) :
    Option (PyHeap × ℕ) :=
  match ensureSessionDict h st with
  | Option.none => Option.none
  | some (h1, sa) =>
    match hdictGet h1 sa "artifacts" with
    | Option.none => some (halloc h1 (PObj.list []))
    | some (PVal.ref a) =>
      match hget h1 a with
      | some (PObj.dict es) =>
        match dget es category with
        | Option.none => some (halloc h1 (PObj.list []))
        | some (PVal.ref ba) =>
          match hget h1 ba with
          | some (PObj.list xs) => some (halloc h1 (PObj.list xs))
          | _ => Option.none
        | some _ => Option.none
      | _ => Option.none
    | some _ => Option.none

/-- Python truthiness of a value (for `filters or \x7b\x7d`). -/
def pyTruthy (h : PyHeap) (v : PVal) : Bool :=
  match v with
  | PVal.s str => !(str == "")
  | PVal.i n => !(n == 0)
  | PVal.f q => !(q == 0)
  | PVal.none => false
  | PVal.ref a =>
    match hget h a with
    | some (PObj.dict es) => !es.isEmpty
    | some (PObj.list xs) => !xs.isEmpty
    | Option.none => true

/-- `set_current_search`: replace the whole `current_search` sub-dict and
stamp its timestamp (`t` stands for `time.time()`). -/
def set_current_search (h : PyHeap) (st : ℕ) (keywords : String)
    (filters : Option PVal) (sortBy : Option String) (t : ℚ) :
    Option PyHeap :=
  match ensureSessionDict h st with
  | Option.none => Option.none
  | some (h1, sa) =>
    let fv : PyHeap × PVal :=
      match filters with
      | some v => if pyTruthy h1 v then (h1, v) else mkEmptyDict h1
      | Option.none => mkEmptyDict h1
    let sb : String :=
      match sortBy with
      | some s => if s = "" then "relevant" else s
      | Option.none => "relevant"
    let rc := halloc fv.1 (PObj.dict
      [("keywords", PVal.s keywords), ("filters", fv.2), ("sort_by", PVal.s sb)])
    let h4 := hdictSet rc.1 sa "current_search" (PVal.ref rc.2)
    some (match hdictGet h4 sa "timestamps" with
      | some (PVal.ref ta) => hdictSet h4 ta "current_search" (PVal.f t)
      | _ => h4)

/-- `v` only references addresses below `n`. -/
def valWf (n : ℕ) : PVal → Bool
  | PVal.ref a => decide (a < n)
  | _ => true

/-- All references of an object stay below `n`. -/
def objWf (n : ℕ) : PObj → Bool
  | PObj.dict es => es.all (fun kv => valWf n kv.2)
  | PObj.list xs => xs.all (valWf n)

/-- A closed heap: every stored reference is in range. -/
def heapWf (h : PyHeap) : Bool := h.all (objWf h.length)

/-- Reference-free snapshot of a value, fully dereferenced to depth `fuel`. -/
inductive PureVal where
  | s (v : String)
  | i (n : Int)
  | f (q : ℚ)
  | none
  | cut
  | dangling
  | pdict (es : List (String × PureVal))
  | plist (xs : List PureVal)

/-- Dereference a value into a snapshot, to depth `fuel`. -/
def viewVal : ℕ → PyHeap → PVal → PureVal
  | _, _, PVal.s v => PureVal.s v
  | _, _, PVal.i n => PureVal.i n
  | _, _, PVal.f q => PureVal.f q
  | _, _, PVal.none => PureVal.none
  | 0, _, PVal.ref _ => PureVal.cut
  | Nat.succ fuel, h, PVal.ref a =>
    match hget h a with
    | Option.none => PureVal.dangling
    | some (PObj.dict es) =>
      PureVal.pdict (es.map (fun kv => (kv.1, viewVal fuel h kv.2)))
    | some (PObj.list xs) => PureVal.plist (xs.map (fun x => viewVal fuel h x))

/-- A getter is frame-safe when the address it returns is a fresh copy:
overwriting the returned object with anything leaves every snapshot of the
stored state unchanged. -/
def FrameSafe (g : PyHeap → ℕ → Option (PyHeap × ℕ)) : Prop :=
  ∀ h st h2 ret, heapWf h = true → g h st = some (h2, ret) →
    ∀ (mutObj : PObj) (fuel : ℕ),
      viewVal fuel (hset h2 ret mutObj) (PVal.ref st)
        = viewVal fuel h2 (PVal.ref st)

/-- Builders used by `setdefaultSection` only allocate, preserve
wellformedness, and return an in-range value. -/
def BuilderOk (mk : PyHeap → PyHeap × PVal) : Prop :=
  ∀ h, (∃ t, (mk h).1 = h ++ t) ∧
    (heapWf h = true → heapWf (mk h).1 = true ∧
      valWf (mk h).1.length (mk h).2 = true)

/-- The heap produced by `_ensure_session_dict` on a fresh one-dict state
(state dict at address 0): root session dict at 1, the seven default
sections at 2-9. -/
def H1 : PyHeap :=
  [PObj.dict [("mmvn_session", PVal.ref 1)],
   PObj.dict [("current_search", PVal.ref 2), ("pagination", PVal.ref 3),
     ("preferences", PVal.ref 4), ("context", PVal.ref 5),
     ("temp_cart", PVal.ref 7), ("timestamps", PVal.ref 8),
     ("artifacts", PVal.ref 9)],
   PObj.dict [],
   PObj.dict [("page", PVal.i 1), ("page_size", PVal.i 10)],
   PObj.dict [],
   PObj.dict [],
   PObj.list [],
   PObj.dict [("items", PVal.ref 6)],
   PObj.dict [],
   PObj.dict []]

/-- The heap after `set_current_search` on the fresh state at time `t`: the
fresh `filters` dict lands at 10, the new `current_search` dict at 11, and
the timestamps dict records `t`. -/
def H3 (t : ℚ) : PyHeap :=
  [PObj.dict [("mmvn_session", PVal.ref 1)],
   PObj.dict [("current_search", PVal.ref 11), ("pagination", PVal.ref 3),
     ("preferences", PVal.ref 4), ("context", PVal.ref 5),
     ("temp_cart", PVal.ref 7), ("timestamps", PVal.ref 8),
     ("artifacts", PVal.ref 9)],
   PObj.dict [],
   PObj.dict [("page", PVal.i 1), ("page_size", PVal.i 10)],
   PObj.dict [],
   PObj.dict [],
   PObj.list [],
   PObj.dict [("items", PVal.ref 6)],
   PObj.dict [("current_search", PVal.f t)],
   PObj.dict [],
   PObj.dict [],
   PObj.dict [("keywords", PVal.s "sữa vinamilk"), ("filters", PVal.ref 10),
     ("sort_by", PVal.s "relevant")]]

/-! ## Theorems -/

/-! ### Trimmer lemmas -/

/-- Flattening the invocation partition restores the turn sequence. -/
theorem splitAux_flatten (l : List Content) :
    ∀ cur, (splitAux cur l).flatten = cur ++ l := by
  induction l with
  | nil => intro cur; cases cur <;> simp [splitAux]
  | cons c rest ih =>
    intro cur
    unfold splitAux
    by_cases hr : c.role = "model"
    · simp [hr, ih, List.append_assoc]
    · simp [hr, ih (cur ++ [c]), List.append_assoc]

/-- Flattening all invocations restores the turn sequence. -/
theorem splitInvocations_flatten (l : List Content) :
    (splitInvocations l).flatten = l := by
  simpa using splitAux_flatten l []

/-- The budget loop returns a suffix of its input. -/
theorem pruneOldest_suffix (budget : ℕ) :
    ∀ l : List Content, pruneOldest budget l <:+ l := by
  intro l
  induction l with
  | nil => exact List.suffix_refl []
  | cons c rest ih =>
    unfold pruneOldest
    split
    · exact List.suffix_refl _
    · exact ih.trans (List.suffix_cons c rest)

/-- The budget loop always lands within budget (possibly by emptying). -/
theorem pruneOldest_tokens (budget : ℕ) :
    ∀ l : List Content, contentsTokens (pruneOldest budget l) ≤ budget := by
  intro l
  induction l with
  | nil => simp [pruneOldest, contentsTokens]
  | cons c rest ih =>
    unfold pruneOldest
    split
    · next h => exact h
    · exact ih

/-- The budget loop keeps the longest within-budget suffix. -/
theorem pruneOldest_longest (budget : ℕ) :
    ∀ (l s : List Content), s <:+ l → contentsTokens s ≤ budget →
      s <:+ pruneOldest budget l := by
  intro l
  induction l with
  | nil =>
    intro s hs _
    rw [List.suffix_nil.mp hs]
    exact List.suffix_refl _
  | cons c rest ih =>
    intro s hs hle
    unfold pruneOldest
    split
    · exact hs
    · next hgt =>
      rcases List.suffix_cons_iff.mp hs with h1 | h2
      · rw [h1] at hle; exact absurd hle hgt
      · exact ih s h2 hle

/-- The kept invocations are a suffix of all invocations. -/
theorem keptInvocations_suffix (contents : List Content) (numKeep : ℕ) :
    keptInvocationsOf contents numKeep <:+ splitInvocations contents := by
  unfold keptInvocationsOf
  split
  · exact List.drop_suffix _ _
  · exact List.suffix_refl _

/-- With a positive keep count, at most that many invocations are kept. -/
theorem keptInvocations_le (contents : List Content) (numKeep : ℕ)
    (h : 0 < numKeep) :
    (keptInvocationsOf contents numKeep).length ≤ numKeep := by
  unfold keptInvocationsOf
  simp only [h, if_true, List.length_drop]
  omega

/-- A content whose parts are all short texts survives shrinking. -/
theorem shrinkContent_id (maxPartChars : ℕ) (c : Content)
    (hp : c.parts.all (partShortText maxPartChars) = true) :
    shrinkContent maxPartChars c = c := by
  cases c with
  | mk role parts =>
    unfold shrinkContent
    simp only [Content.mk.injEq, true_and]
    induction parts with
    | nil => rfl
    | cons p rest ih =>
      simp only [List.all_cons, Bool.and_eq_true] at hp
      obtain ⟨hp1, hrest⟩ := hp
      cases p with
      | mk ptext =>
        cases ptext with
        | none => simp [partShortText] at hp1
        | some txt =>
          have hlen : txt.length ≤ maxPartChars := by
            simpa [partShortText] using hp1
          simp only [List.all_cons] at ih
          simp [List.filterMap_cons, ih hrest, Nat.not_lt.mpr hlen]

/-- A sequence of all-short-text contents survives shrinking. -/
theorem map_shrink_id (maxPartChars : ℕ) :
    ∀ cs : List Content,
      cs.all (fun c => c.parts.all (partShortText maxPartChars)) = true →
      cs.map (shrinkContent maxPartChars) = cs := by
  intro cs
  induction cs with
  | nil => intro _; rfl
  | cons c rest ih =>
    intro hall
    simp only [List.all_cons, Bool.and_eq_true] at hall
    simp [shrinkContent_id maxPartChars c hall.1, ih hall.2]

/-! ### C1 -/

/-- C1 counterexample: a non-empty history whose single (hence most recent)
Invocation exceeds the budget is entirely evicted by the budget loop — the
trimmed output is empty, not an over-budget result. -/
theorem c1_counterexample :
    ([Content.mk "user" [ContentPart.mk (some "hello world")]] ≠
        ([] : List Content))
    ∧ filter_llm_request_contents
        [Content.mk "user" [ContentPart.mk (some "hello world")]] 5 1 2000
        = [] := by
  constructor
  · decide
  · decide

/-- The trimmed output is the longest within-budget suffix of the shrunk kept
turn sequence. -/
theorem filter_longest_fitting_suffix (contents : List Content)
    (numKeep budget maxPartChars : ℕ) :
    filter_llm_request_contents contents numKeep budget maxPartChars
        <:+ shrunkKeptOf contents numKeep maxPartChars
    ∧ contentsTokens
        (filter_llm_request_contents contents numKeep budget maxPartChars)
        ≤ budget
    ∧ ∀ s, s <:+ shrunkKeptOf contents numKeep maxPartChars →
        contentsTokens s ≤ budget →
        s <:+ filter_llm_request_contents contents numKeep budget maxPartChars := by
  unfold filter_llm_request_contents
  cases hce : contents.isEmpty
  · simp only [Bool.false_eq_true, if_false]
    split
    · next hle =>
      exact ⟨List.suffix_refl _, hle, fun s hs _ => hs⟩
    · next hgt =>
      exact ⟨pruneOldest_suffix budget _, pruneOldest_tokens budget _,
        fun s hs hle => pruneOldest_longest budget _ s hs hle⟩
  · have hc : contents = [] := List.isEmpty_iff.mp hce
    subst hc
    have h0 : shrunkKeptOf [] numKeep maxPartChars = [] := by
      simp [shrunkKeptOf, keptInvocationsOf, splitInvocations, splitAux]
    simp only [if_true]
    refine ⟨by simp [h0], by simp [contentsTokens], ?_⟩
    intro s hs _
    rw [h0] at hs
    exact hs

/-- C1 amended: the budget loop evicts single turns from the oldest side, so
the trimmed output is exactly the longest suffix of the shrunk kept turn
sequence whose estimated total fits the budget; the most recent Invocation is
not protected, the result is never over budget, and it can be empty even for
non-empty input. -/
theorem c1_amended (contents : List Content) (numKeep budget maxPartChars : ℕ) :
    filter_llm_request_contents contents numKeep budget maxPartChars
        <:+ shrunkKeptOf contents numKeep maxPartChars
    ∧ contentsTokens
        (filter_llm_request_contents contents numKeep budget maxPartChars)
        ≤ budget
    ∧ ∀ s, s <:+ shrunkKeptOf contents numKeep maxPartChars →
        contentsTokens s ≤ budget →
        s <:+ filter_llm_request_contents contents numKeep budget maxPartChars :=
  filter_longest_fitting_suffix contents numKeep budget maxPartChars

/-- C1 amended, instantiated at the counterexample input. -/
theorem c1_amended_witness :
    filter_llm_request_contents
        [Content.mk "user" [ContentPart.mk (some "hello world")]] 5 1 2000
        <:+ shrunkKeptOf
          [Content.mk "user" [ContentPart.mk (some "hello world")]] 5 2000
    ∧ contentsTokens
        (filter_llm_request_contents
          [Content.mk "user" [ContentPart.mk (some "hello world")]] 5 1 2000)
        ≤ 1
    ∧ ∀ s, s <:+ shrunkKeptOf
          [Content.mk "user" [ContentPart.mk (some "hello world")]] 5 2000 →
        contentsTokens s ≤ 1 →
        s <:+ filter_llm_request_contents
          [Content.mk "user" [ContentPart.mk (some "hello world")]] 5 1 2000 :=
  c1_amended [Content.mk "user" [ContentPart.mk (some "hello world")]] 5 1 2000

/-! ### C2 -/

/-- C2 counterexample: one Invocation `[user, model]` over budget; the budget
loop evicts just the user turn, so the output `[model]` is not the
flattening of either suffix (`[]` or the whole group list) of the Invocation
groups — the Invocation has been split. -/
theorem c2_counterexample :
    splitInvocations
        (shrunkKeptOf
          [Content.mk "user" [ContentPart.mk (some "aaaa")],
           Content.mk "model" [ContentPart.mk (some "four")]] 5 2000)
      = [[Content.mk "user" [ContentPart.mk (some "aaaa")],
          Content.mk "model" [ContentPart.mk (some "four")]]]
    ∧ filter_llm_request_contents
        [Content.mk "user" [ContentPart.mk (some "aaaa")],
         Content.mk "model" [ContentPart.mk (some "four")]] 5 1 2000
      = [Content.mk "model" [ContentPart.mk (some "four")]]
    ∧ [Content.mk "model" [ContentPart.mk (some "four")]]
      ≠ List.flatten ([] : List (List Content))
    ∧ [Content.mk "model" [ContentPart.mk (some "four")]]
      ≠ List.flatten
          [[Content.mk "user" [ContentPart.mk (some "aaaa")],
            Content.mk "model" [ContentPart.mk (some "four")]]] := by
  refine ⟨by decide, by decide, by decide, by decide⟩

/-- C2 amended: the keep-last-N step never splits an Invocation — the kept
turns are the flattening of a suffix of the Invocation groups, at most N
groups for positive N — but the budget-eviction loop then evicts single
turns, so its output is only guaranteed to be a suffix of the shrunk kept
turn sequence, possibly cutting through the oldest retained Invocation. -/
theorem c2_amended (contents : List Content)
    (numKeep budget maxPartChars : ℕ) :
    keptInvocationsOf contents numKeep <:+ splitInvocations contents
    ∧ (0 < numKeep → (keptInvocationsOf contents numKeep).length ≤ numKeep)
    ∧ shrunkKeptOf contents numKeep maxPartChars
        = ((keptInvocationsOf contents numKeep).flatten).map
            (shrinkContent maxPartChars)
    ∧ filter_llm_request_contents contents numKeep budget maxPartChars
        <:+ shrunkKeptOf contents numKeep maxPartChars := by
  refine ⟨keptInvocations_suffix contents numKeep,
    fun h => keptInvocations_le contents numKeep h, rfl, ?_⟩
  exact (filter_longest_fitting_suffix contents numKeep budget maxPartChars).1

/-- C2 amended, instantiated at the counterexample input with the group
bound discharged at N = 5. -/
theorem c2_amended_witness :
    keptInvocationsOf
        [Content.mk "user" [ContentPart.mk (some "aaaa")],
         Content.mk "model" [ContentPart.mk (some "four")]] 5
      <:+ splitInvocations
        [Content.mk "user" [ContentPart.mk (some "aaaa")],
         Content.mk "model" [ContentPart.mk (some "four")]]
    ∧ (keptInvocationsOf
        [Content.mk "user" [ContentPart.mk (some "aaaa")],
         Content.mk "model" [ContentPart.mk (some "four")]] 5).length ≤ 5
    ∧ filter_llm_request_contents
        [Content.mk "user" [ContentPart.mk (some "aaaa")],
         Content.mk "model" [ContentPart.mk (some "four")]] 5 1 2000
      <:+ shrunkKeptOf
        [Content.mk "user" [ContentPart.mk (some "aaaa")],
         Content.mk "model" [ContentPart.mk (some "four")]] 5 2000 :=
  ⟨(c2_amended
      [Content.mk "user" [ContentPart.mk (some "aaaa")],
       Content.mk "model" [ContentPart.mk (some "four")]] 5 1 2000).1,
   (c2_amended
      [Content.mk "user" [ContentPart.mk (some "aaaa")],
       Content.mk "model" [ContentPart.mk (some "four")]] 5 1 2000).2.1
     (by decide),
   (c2_amended
      [Content.mk "user" [ContentPart.mk (some "aaaa")],
       Content.mk "model" [ContentPart.mk (some "four")]] 5 1 2000).2.2.2⟩

/-! ### C3 -/

/-- C3 counterexample: a single-turn history with one non-text part sits well
under the default budget, yet trimming drops the part — trimming is not the
identity transform on every under-budget input. -/
theorem c3_counterexample :
    contentsTokens [Content.mk "user" [ContentPart.mk Option.none]] ≤ 3000
    ∧ filter_llm_request_contents
        [Content.mk "user" [ContentPart.mk Option.none]] 5 3000 2000
      ≠ [Content.mk "user" [ContentPart.mk Option.none]] := by
  constructor
  · decide
  · decide

/-- C3 amended: trimming is the identity transform when, in addition to the
untrimmed estimated total fitting the budget, the history has at most
`maxInvocations` Invocations (or the keep count is 0 = keep all), every part
is a text part, and no text exceeds `maxPartChars`. -/
theorem c3_amended (contents : List Content) (numKeep budget maxPartChars : ℕ)
    (hinv : (splitInvocations contents).length ≤ numKeep ∨ numKeep = 0)
    (hparts : contents.all
      (fun c => c.parts.all (partShortText maxPartChars)) = true)
    (hbudget : contentsTokens contents ≤ budget) :
    filter_llm_request_contents contents numKeep budget maxPartChars
      = contents := by
  have hkept : keptInvocationsOf contents numKeep = splitInvocations contents := by
    unfold keptInvocationsOf
    rcases hinv with h | h
    · by_cases h0 : 0 < numKeep
      · simp [h0, Nat.sub_eq_zero_of_le h]
      · simp [h0]
    · simp [h]
  have hshrunk : shrunkKeptOf contents numKeep maxPartChars = contents := by
    unfold shrunkKeptOf
    rw [hkept, splitInvocations_flatten]
    exact map_shrink_id maxPartChars contents hparts
  unfold filter_llm_request_contents
  cases hce : contents.isEmpty
  · simp only [Bool.false_eq_true, if_false]
    simp only [hshrunk, hbudget, if_true]
  · rfl

/-- C3 amended, instantiated at a two-turn all-text under-budget history. -/
theorem c3_amended_witness :
    filter_llm_request_contents
      [Content.mk "user" [ContentPart.mk (some "hi")],
       Content.mk "model" [ContentPart.mk (some "ok")]] 5 3000 2000
    = [Content.mk "user" [ContentPart.mk (some "hi")],
       Content.mk "model" [ContentPart.mk (some "ok")]] :=
  c3_amended
    [Content.mk "user" [ContentPart.mk (some "hi")],
     Content.mk "model" [ContentPart.mk (some "ok")]] 5 3000 2000
    (Or.inl (by decide)) (by decide) (by decide)

/-! ### C4 -/

/-- C4 counterexample: when the ArtifactWriter write fails, the single
`try` block aborts before `save_dialog`, so the RelationalIndex write is
never attempted. -/
theorem c4_counterexample :
    (handleDialogSummaryItem (Except.error "artifact write failed")
      (Except.ok ())).relationalAttempted = false := by
  decide

/-- C4 amended: both collaborator writes sit in one shared `try` block, not
two independent ones: a failure in either is logged and the job is discarded
with no retry and no requeue, but an ArtifactWriter failure prevents the
RelationalIndex write from being attempted. -/
theorem c4_amended (artifactWrite : Except String String)
    (relationalWrite : Except String Unit) (j : DialogJob)
    (q : List DialogJob) :
    workerStep artifactWrite relationalWrite (j :: q)
      = (q, some (handleDialogSummaryItem artifactWrite relationalWrite))
    ∧ (handleDialogSummaryItem artifactWrite relationalWrite).artifactAttempted
      = true
    ∧ (∀ e, artifactWrite = Except.error e →
        handleDialogSummaryItem artifactWrite relationalWrite
          = HandleTrace.mk true false true)
    ∧ (∀ r e, artifactWrite = Except.ok r →
        relationalWrite = Except.error e →
        handleDialogSummaryItem artifactWrite relationalWrite
          = HandleTrace.mk true true true)
    ∧ (∀ r u, artifactWrite = Except.ok r → relationalWrite = Except.ok u →
        handleDialogSummaryItem artifactWrite relationalWrite
          = HandleTrace.mk true true false) := by
  refine ⟨rfl, ?_, ?_, ?_, ?_⟩
  · cases artifactWrite <;> cases relationalWrite <;> rfl
  · intro e he; rw [he]; rfl
  · intro r e ha hr; rw [ha, hr]; rfl
  · intro r u ha hr; rw [ha, hr]; rfl

/-- C4 amended, instantiated at a failing artifact write: the job is popped,
never requeued, and the relational write is not attempted. -/
theorem c4_amended_witness :
    workerStep (Except.error "io") (Except.ok ())
        [DialogJob.mk "s1" "q" "a" ""]
      = ([], some (handleDialogSummaryItem (Except.error "io") (Except.ok ())))
    ∧ handleDialogSummaryItem (Except.error "io") (Except.ok ())
      = HandleTrace.mk true false true :=
  ⟨(c4_amended (Except.error "io") (Except.ok ())
      (DialogJob.mk "s1" "q" "a" "") []).1,
   (c4_amended (Except.error "io") (Except.ok ())
      (DialogJob.mk "s1" "q" "a" "") []).2.2.1 "io" rfl⟩

/-! ### C5 -/

/-- C5 counterexample: a product whose name contains the query as an exact
substring and also contains every query token scores 1.0, not 1.0 + 0.5 —
the two name contributions do not stack. -/
theorem c5_counterexample :
    calcProductRelevance (ProductR.mk "" "abc def" 0 "" "" "" "") "abc def" = 1
    ∧ (pyWords (pyLower "abc def")).any
        (fun w => containsSub w (pyLower "abc def")) = true
    ∧ (1 : ℚ) ≠ 1 + 1/2 := by
  refine ⟨?_, by decide, by norm_num⟩
  simp only [calcProductRelevance]
  rw [if_neg (by decide : ¬("abc def" = "")),
    if_neg (by decide : ¬((pyLower "abc def").isEmpty = true)),
    if_pos (by decide :
      containsSub (pyLower "abc def") (pyLower "abc def") = true),
    if_neg (by decide : ¬((!(pyLower "").isEmpty
      && (pyWords (pyLower "abc def")).any
        (fun w => containsSub w (pyLower ""))) = true)),
    if_neg (by decide : ¬((!(pyLower "").isEmpty
      && containsSub (pyLower "abc def") (pyLower "")) = true))]
  norm_num

/-- C5 amended: the relevance score is the sum of three per-field
contributions — name, category (+0.3), SKU (+0.8) — but the name
contribution is a single value chosen by an if/elif chain: 1.0 for an exact
substring, else 0.5 for a token match, never both. -/
theorem c5_amended :
    (∀ (p : ProductR) (q : String),
      calcProductRelevance p q
        = nameScore p q + categoryScore p q + skuScore p q)
    ∧ (∀ (p : ProductR) (q : String),
      nameScore p q = 0 ∨ nameScore p q = 1/2 ∨ nameScore p q = 1)
    ∧ calcProductRelevance (ProductR.mk "" "abc def" 0 "" "" "" "") "abc def"
      = 1
    ∧ nameScore (ProductR.mk "" "abc def" 0 "" "" "" "") "abc def" = 1 := by
  refine ⟨?_, ?_, ?_, ?_⟩
  · intro p q
    by_cases hq : q = "" <;>
      simp [calcProductRelevance, nameScore, categoryScore, skuScore, hq]
  · intro p q
    simp only [nameScore]
    split_ifs
    · exact Or.inl rfl
    · exact Or.inl rfl
    · exact Or.inr (Or.inr rfl)
    · exact Or.inr (Or.inl rfl)
    · exact Or.inl rfl
  · simp only [calcProductRelevance]
    rw [if_neg (by decide : ¬("abc def" = "")),
      if_neg (by decide : ¬((pyLower "abc def").isEmpty = true)),
      if_pos (by decide :
        containsSub (pyLower "abc def") (pyLower "abc def") = true),
      if_neg (by decide : ¬((!(pyLower "").isEmpty
        && (pyWords (pyLower "abc def")).any
          (fun w => containsSub w (pyLower ""))) = true)),
      if_neg (by decide : ¬((!(pyLower "").isEmpty
        && containsSub (pyLower "abc def") (pyLower "")) = true))]
    norm_num
  · simp only [nameScore]
    rw [if_neg (by decide : ¬("abc def" = "")),
      if_neg (by decide : ¬((pyLower "abc def").isEmpty = true)),
      if_pos (by decide :
        containsSub (pyLower "abc def") (pyLower "abc def") = true)]

/-! ### C6 -/

/-- C6: on an empty record list the shaper returns the no-results sentinel —
a JSON object tagged `no-results` carrying a message — whose item list is
empty, for every query, metadata and token ceiling. -/
theorem c6_confirmed (total searchType user_query : String) (maxOut : ℕ) :
    buildSearchResponse (SearchData.mk [] total searchType) user_query maxOut
      = SearchResponse.noResults
          ("Không tìm thấy sản phẩm phù hợp với " ++ squote ++ user_query
            ++ squote)
    ∧ (buildSearchResponse (SearchData.mk [] total searchType) user_query
        maxOut).items = []
    ∧ optimize_search_response (SearchData.mk [] total searchType) user_query
        maxOut
      = jsonDumpsResponse (SearchResponse.noResults
          ("Không tìm thấy sản phẩm phù hợp với " ++ squote ++ user_query
            ++ squote)) :=
  ⟨rfl, rfl, rfl⟩

/-! ### Sort lemmas for C7 -/

/-- Inserting adds one element. -/
theorem insertByScore_length {α : Type} (a : α × ℚ) :
    ∀ l : List (α × ℚ), (insertByScore a l).length = l.length + 1 := by
  intro l
  induction l with
  | nil => rfl
  | cons b l ih =>
    unfold insertByScore
    split
    · simp
    · simp [ih]

/-- Sorting preserves length. -/
theorem sortByScoreDesc_length {α : Type} :
    ∀ l : List (α × ℚ), (sortByScoreDesc l).length = l.length := by
  intro l
  induction l with
  | nil => rfl
  | cons a l ih =>
    unfold sortByScoreDesc
    rw [insertByScore_length, ih]
    rfl

/-- Members of an insertion. -/
theorem mem_insertByScore {α : Type} (a : α × ℚ) :
    ∀ (l : List (α × ℚ)) (b : α × ℚ), b ∈ insertByScore a l → b = a ∨ b ∈ l := by
  intro l
  induction l with
  | nil =>
    intro b hb
    simp [insertByScore] at hb
    exact Or.inl hb
  | cons c l ih =>
    intro b hb
    unfold insertByScore at hb
    split at hb
    · rcases List.mem_cons.mp hb with h1 | h2
      · exact Or.inl h1
      · exact Or.inr h2
    · rcases List.mem_cons.mp hb with h1 | h2
      · exact Or.inr (h1 ▸ List.mem_cons_self c l)
      · rcases ih b h2 with h3 | h4
        · exact Or.inl h3
        · exact Or.inr (List.mem_cons_of_mem c h4)

/-- Insertion preserves descending order by score. -/
theorem insertByScore_pairwise {α : Type} (a : α × ℚ) :
    ∀ l : List (α × ℚ), l.Pairwise (fun x y => y.2 ≤ x.2) →
      (insertByScore a l).Pairwise (fun x y => y.2 ≤ x.2) := by
  intro l
  induction l with
  | nil => intro _; simp [insertByScore]
  | cons b l ih =>
    intro hp
    rw [List.pairwise_cons] at hp
    obtain ⟨hb, hl⟩ := hp
    unfold insertByScore
    split
    · next hba =>
      refine List.Pairwise.cons ?_ (List.Pairwise.cons hb hl)
      intro z hz
      rcases List.mem_cons.mp hz with h1 | h2
      · rw [h1]; exact hba
      · exact le_trans (hb z h2) hba
    · next hba =>
      refine List.Pairwise.cons ?_ (ih hl)
      intro z hz
      rcases mem_insertByScore a l z hz with h1 | h2
      · rw [h1]; exact le_of_lt (lt_of_not_le hba)
      · exact hb z h2

/-- The stable sort is descending by score. -/
theorem sortByScoreDesc_pairwise {α : Type} :
    ∀ l : List (α × ℚ), (sortByScoreDesc l).Pairwise (fun x y => y.2 ≤ x.2) := by
  intro l
  induction l with
  | nil => simp [sortByScoreDesc]
  | cons a l ih => exact insertByScore_pairwise a (sortByScoreDesc l) ih

/-- Insertion keeps the equal-score fiber: the inserted element lands in
front of no equal-score element already present. -/
theorem insertByScore_filter {α : Type} (s : ℚ) (a : α × ℚ) :
    ∀ l : List (α × ℚ),
      (insertByScore a l).filter (fun x => decide (x.2 = s))
        = if a.2 = s then a :: l.filter (fun x => decide (x.2 = s))
          else l.filter (fun x => decide (x.2 = s)) := by
  intro l
  induction l with
  | nil =>
    by_cases ha : a.2 = s <;> simp [insertByScore, List.filter, ha]
  | cons b l ih =>
    unfold insertByScore
    split
    · next hba =>
      by_cases ha : a.2 = s <;> simp [List.filter_cons, ha]
    · next hba =>
      have hab : a.2 < b.2 := lt_of_not_le hba
      by_cases ha : a.2 = s
      · have hbs : ¬(b.2 = s) := by
          intro hb2
          rw [ha] at hab
          rw [hb2] at hab
          exact lt_irrefl s hab
        simp [List.filter_cons, hbs, ih, ha]
      · by_cases hbs : b.2 = s <;> simp [List.filter_cons, hbs, ih, ha]

/-- Stability: sorting preserves each equal-score fiber, hence ties keep
their original relative order. -/
theorem sortByScoreDesc_filter {α : Type} (s : ℚ) :
    ∀ l : List (α × ℚ),
      (sortByScoreDesc l).filter (fun x => decide (x.2 = s))
        = l.filter (fun x => decide (x.2 = s)) := by
  intro l
  induction l with
  | nil => rfl
  | cons a l ih =>
    unfold sortByScoreDesc
    rw [insertByScore_filter]
    by_cases ha : a.2 = s <;> simp [List.filter_cons, ha, ih]

/-! ### C7 -/

/-- C7: with more than 10 candidate records the shaper returns exactly 10
items — the top 10 of the stable descending sort by relevance score, mapped
to minimal records (with one optional field-reduction pass that preserves
count and order); the sort is descending and ties keep their input order. -/
theorem c7_confirmed (search_data : SearchData) (user_query : String)
    (maxOut : ℕ) (hlen : 10 < search_data.products.length) :
    (buildSearchResponse search_data user_query maxOut).items.length = 10
    ∧ ((buildSearchResponse search_data user_query maxOut).items
        = ((sortByScoreDesc (search_data.products.map
            (fun p => (p, calcProductRelevance p user_query)))).take 10).map
            (fun pr => createMinimalProduct pr.1)
       ∨ (buildSearchResponse search_data user_query maxOut).items
        = ((sortByScoreDesc (search_data.products.map
            (fun p => (p, calcProductRelevance p user_query)))).take 10).map
            (fun pr => reduceProductFields (createMinimalProduct pr.1)))
    ∧ (sortByScoreDesc (search_data.products.map
        (fun p => (p, calcProductRelevance p user_query)))).Pairwise
        (fun x y => y.2 ≤ x.2)
    ∧ ∀ s : ℚ,
        (sortByScoreDesc (search_data.products.map
          (fun p => (p, calcProductRelevance p user_query)))).filter
          (fun x => decide (x.2 = s))
        = (search_data.products.map
            (fun p => (p, calcProductRelevance p user_query))).filter
          (fun x => decide (x.2 = s)) := by
  have hne : search_data.products.isEmpty = false := by
    cases hp : search_data.products with
    | nil => rw [hp] at hlen; simp at hlen
    | cons a l => rfl
  have hslen : (sortByScoreDesc (search_data.products.map
      (fun p => (p, calcProductRelevance p user_query)))).length
      = search_data.products.length := by
    rw [sortByScoreDesc_length, List.length_map]
  have hess : selectEssentialProducts search_data.products user_query 10
      = ((sortByScoreDesc (search_data.products.map
          (fun p => (p, calcProductRelevance p user_query)))).take 10).map
          (fun pr => createMinimalProduct pr.1) := by
    unfold selectEssentialProducts
    simp only [hne, Bool.false_eq_true, if_false]
  have hesslen : (selectEssentialProducts search_data.products user_query
      10).length = 10 := by
    rw [hess, List.length_map, List.length_take, hslen]
    omega
  have hnotlt : ¬(10 < (selectEssentialProducts search_data.products
      user_query 10).length) := by
    rw [hesslen]
    omega
  refine ⟨?_, ?_, sortByScoreDesc_pairwise _, fun s => sortByScoreDesc_filter s _⟩
  · unfold buildSearchResponse
    simp only [hne, Bool.false_eq_true, if_false]
    split
    · simp only [furtherReduceResponse, SearchResponse.items]
      rw [if_neg hnotlt, List.length_map, hesslen]
    · simp only [SearchResponse.items]
      exact hesslen
  · unfold buildSearchResponse
    simp only [hne, Bool.false_eq_true, if_false]
    split
    · refine Or.inr ?_
      simp only [furtherReduceResponse, SearchResponse.items]
      rw [if_neg hnotlt, hess, List.map_map]
      rfl
    · exact Or.inl hess

/-- C7, instantiated: 11 identical candidates yield exactly 10 items. -/
theorem c7_witness :
    (buildSearchResponse
      (SearchData.mk (List.replicate 11 (ProductR.mk "" "" 0 "" "" "" ""))
        "11" "keyword") "x" 500).items.length = 10 :=
  (c7_confirmed
    (SearchData.mk (List.replicate 11 (ProductR.mk "" "" 0 "" "" "" ""))
      "11" "keyword") "x" 500 (by decide)).1

/-! ### Heap lemmas -/

/-- A successful read is in range. -/
theorem hget_lt : ∀ (h : PyHeap) (a : ℕ) (o : PObj),
    hget h a = some o → a < h.length := by
  intro h
  induction h with
  | nil => intro a o hx; cases hx
  | cons x t ih =>
    intro a o hx
    cases a with
    | zero => exact Nat.succ_pos t.length
    | succ a => exact Nat.succ_lt_succ (ih a o hx)

/-- A successfully read object is a member of the heap. -/
theorem hget_mem : ∀ (h : PyHeap) (a : ℕ) (o : PObj),
    hget h a = some o → o ∈ h := by
  intro h
  induction h with
  | nil => intro a o hx; cases hx
  | cons x t ih =>
    intro a o hx
    cases a with
    | zero =>
      cases hx
      exact List.mem_cons_self x t
    | succ a => exact List.mem_cons_of_mem x (ih a o hx)

/-- Reads below the old length ignore appended objects. -/
theorem hget_append : ∀ (h t : PyHeap) (a : ℕ),
    a < h.length → hget (h ++ t) a = hget h a := by
  intro h
  induction h with
  | nil => intro t a ha; cases ha
  | cons x s ih =>
    intro t a ha
    cases a with
    | zero => rfl
    | succ a => exact ih t a (Nat.lt_of_succ_lt_succ ha)

/-- Reading a freshly appended object. -/
theorem hget_append_self : ∀ (h : PyHeap) (o : PObj),
    hget (h ++ [o]) h.length = some o := by
  intro h
  induction h with
  | nil => intro o; rfl
  | cons x s ih => intro o; exact ih o

/-- Overwriting the freshly appended object. -/
theorem hset_append_last : ∀ (h : PyHeap) (o o2 : PObj),
    hset (h ++ [o]) h.length o2 = h ++ [o2] := by
  intro h
  induction h with
  | nil => intro o o2; rfl
  | cons x s ih => intro o o2; simp [List.cons_append, hset, ih]

/-- Writing elsewhere does not change a read. -/
theorem hget_hset_ne : ∀ (h : PyHeap) (a b : ℕ) (o : PObj),
    a ≠ b → hget (hset h b o) a = hget h a := by
  intro h
  induction h with
  | nil => intro a b o _; rfl
  | cons x t ih =>
    intro a b o hab
    cases b with
    | zero =>
      cases a with
      | zero => exact absurd rfl hab
      | succ a => rfl
    | succ b =>
      cases a with
      | zero => rfl
      | succ a => exact ih a b o (fun hc => hab (by rw [hc]))

/-- Reading back an in-range write. -/
theorem hget_hset_self : ∀ (h : PyHeap) (a : ℕ) (o : PObj),
    a < h.length → hget (hset h a o) a = some o := by
  intro h
  induction h with
  | nil => intro a o ha; cases ha
  | cons x t ih =>
    intro a o ha
    cases a with
    | zero => rfl
    | succ a => exact ih a o (Nat.lt_of_succ_lt_succ ha)

/-- Writing preserves length. -/
theorem length_hset : ∀ (h : PyHeap) (a : ℕ) (o : PObj),
    (hset h a o).length = h.length := by
  intro h
  induction h with
  | nil => intro a o; rfl
  | cons x t ih =>
    intro a o
    cases a with
    | zero => rfl
    | succ a => simp only [hset, List.length_cons, ih a o]

/-- Members after a write come from the old heap or are the written object. -/
theorem mem_hset : ∀ (h : PyHeap) (a : ℕ) (o x : PObj),
    x ∈ hset h a o → x ∈ h ∨ x = o := by
  intro h
  induction h with
  | nil => intro a o x hx; cases hx
  | cons y t ih =>
    intro a o x hx
    cases a with
    | zero =>
      rcases List.mem_cons.mp hx with h1 | h2
      · exact Or.inr h1
      · exact Or.inl (List.mem_cons_of_mem y h2)
    | succ a =>
      rcases List.mem_cons.mp hx with h1 | h2
      · exact Or.inl (h1 ▸ List.mem_cons_self y t)
      · rcases ih a o x h2 with h3 | h4
        · exact Or.inl (List.mem_cons_of_mem y h3)
        · exact Or.inr h4

/-! ### Wellformedness lemmas -/

/-- Reference bounds are monotone. -/
theorem valWf_mono (n m : ℕ) (v : PVal) (hnm : n ≤ m)
    (hv : valWf n v = true) : valWf m v = true := by
  cases v with
  | ref a =>
    simp only [valWf, decide_eq_true_eq] at hv ⊢
    exact Nat.lt_of_lt_of_le hv hnm
  | s w => rfl
  | i x => rfl
  | f q => rfl
  | none => rfl

/-- Object bounds are monotone. -/
theorem objWf_mono (n m : ℕ) (o : PObj) (hnm : n ≤ m)
    (ho : objWf n o = true) : objWf m o = true := by
  cases o with
  | dict es =>
    simp only [objWf, List.all_eq_true] at ho ⊢
    exact fun kv hkv => valWf_mono n m kv.2 hnm (ho kv hkv)
  | list xs =>
    simp only [objWf, List.all_eq_true] at ho ⊢
    exact fun v hv => valWf_mono n m v hnm (ho v hv)

/-- Appending a wellformed object preserves heap wellformedness. -/
theorem heapWf_append (h : PyHeap) (o : PObj) (hwf : heapWf h = true)
    (ho : objWf (h.length + 1) o = true) : heapWf (h ++ [o]) = true := by
  simp only [heapWf, List.all_eq_true, List.length_append, List.length_cons,
    List.length_nil] at hwf ⊢
  intro x hx
  rcases List.mem_append.mp hx with h1 | h2
  · exact objWf_mono h.length (h.length + 0 + 1) x (by omega)
      (hwf x h1)
  · rcases List.mem_singleton.mp h2 with rfl
    exact objWf_mono (h.length + 1) (h.length + 0 + 1) x (by omega) ho

/-- Overwriting with a wellformed object preserves heap wellformedness. -/
theorem heapWf_hset (h : PyHeap) (a : ℕ) (o : PObj)
    (hwf : heapWf h = true) (ho : objWf h.length o = true) :
    heapWf (hset h a o) = true := by
  simp only [heapWf, List.all_eq_true, length_hset] at hwf ⊢
  intro x hx
  rcases mem_hset h a o x hx with h1 | h2
  · exact hwf x h1
  · exact h2 ▸ ho

/-! ### Dict lemmas -/

/-- A set key reads back. -/
theorem dget_dset_self : ∀ (es : List (String × PVal)) (k : String) (v : PVal),
    dget (dset es k v) k = some v := by
  intro es
  induction es with
  | nil => intro k v; simp [dset, dget]
  | cons kv rest ih =>
    intro k v
    obtain ⟨k0, v0⟩ := kv
    unfold dset
    by_cases hk : k0 = k
    · simp [hk, dget]
    · simp [hk, dget, ih]

/-- Setting a key preserves the presence of every key. -/
theorem dget_dset_isSome : ∀ (es : List (String × PVal)) (k : String)
    (v : PVal) (k2 : String), (dget es k2).isSome = true →
    (dget (dset es k v) k2).isSome = true := by
  intro es
  induction es with
  | nil => intro k v k2 hk2; simp [dget] at hk2
  | cons kv rest ih =>
    intro k v k2 hk2
    obtain ⟨k0, v0⟩ := kv
    unfold dset
    by_cases hk : k0 = k
    · simp only [hk, if_true]
      unfold dget at hk2 ⊢
      by_cases hk2' : k = k2 <;> simp_all
    · simp only [hk, if_false]
      unfold dget at hk2 ⊢
      by_cases hk2' : k0 = k2
      · simp_all
      · simp only [hk2', if_false] at hk2 ⊢
        exact ih k v k2 hk2

/-- Setting a wellformed value keeps all entries wellformed. -/
theorem dset_all_wf : ∀ (es : List (String × PVal)) (k : String) (v : PVal)
    (n : ℕ), es.all (fun kv => valWf n kv.2) = true → valWf n v = true →
    (dset es k v).all (fun kv => valWf n kv.2) = true := by
  intro es
  induction es with
  | nil => intro k v n _ hv; simp [dset, hv]
  | cons kv rest ih =>
    intro k v n hall hv
    obtain ⟨k0, v0⟩ := kv
    simp only [List.all_cons, Bool.and_eq_true] at hall
    unfold dset
    by_cases hk : k0 = k
    · simp [hk, hv, hall.2]
    · simp [hk, hall.1, ih k v n hall.2 hv]

/-! ### hdictSet lemmas -/

/-- Dict update preserves heap length. -/
theorem length_hdictSet (h : PyHeap) (a : ℕ) (k : String) (v : PVal) :
    (hdictSet h a k v).length = h.length := by
  unfold hdictSet
  cases hh : hget h a with
  | none => rfl
  | some o =>
    cases o with
    | dict es => exact length_hset h a _
    | list xs => rfl

/-- Dict update does not change other addresses. -/
theorem hget_hdictSet_ne (h : PyHeap) (a b : ℕ) (k : String) (v : PVal)
    (hab : b ≠ a) : hget (hdictSet h a k v) b = hget h b := by
  unfold hdictSet
  cases hh : hget h a with
  | none => rfl
  | some o =>
    cases o with
    | dict es => exact hget_hset_ne h b a _ hab
    | list xs => rfl

/-- Dict update reads back the updated entries. -/
theorem hget_hdictSet_self (h : PyHeap) (a : ℕ) (k : String) (v : PVal)
    (es : List (String × PVal)) (hsa : hget h a = some (PObj.dict es)) :
    hget (hdictSet h a k v) a = some (PObj.dict (dset es k v)) := by
  unfold hdictSet
  rw [hsa]
  exact hget_hset_self h a _ (hget_lt h a _ hsa)

/-- Dict update with an in-range value preserves wellformedness. -/
theorem heapWf_hdictSet (h : PyHeap) (a : ℕ) (k : String) (v : PVal)
    (hwf : heapWf h = true) (hv : valWf h.length v = true) :
    heapWf (hdictSet h a k v) = true := by
  unfold hdictSet
  cases hh : hget h a with
  | none => exact hwf
  | some o =>
    cases o with
    | dict es =>
      refine heapWf_hset h a _ hwf ?_
      have hobj : objWf h.length (PObj.dict es) = true := by
        have hmem := hget_mem h a _ hh
        simp only [heapWf, List.all_eq_true] at hwf
        exact hwf _ hmem
      simp only [objWf] at hobj ⊢
      exact dset_all_wf es k v h.length hobj hv
    | list xs => exact hwf

/-! ### Builder lemmas -/

/-- The empty-dict default builder is wellbehaved. -/
theorem builderOk_mkEmptyDict : BuilderOk mkEmptyDict := by
  intro h
  refine ⟨⟨[PObj.dict []], rfl⟩, fun hwf => ⟨?_, ?_⟩⟩
  · exact heapWf_append h (PObj.dict []) hwf rfl
  · simp only [mkEmptyDict, halloc, valWf, List.length_append,
      List.length_cons, List.length_nil, decide_eq_true_eq]
    omega

/-- The pagination default builder is wellbehaved. -/
theorem builderOk_mkPagination : BuilderOk mkPagination := by
  intro h
  refine ⟨⟨[PObj.dict [("page", PVal.i 1), ("page_size", PVal.i 10)]], rfl⟩,
    fun hwf => ⟨?_, ?_⟩⟩
  · exact heapWf_append h _ hwf rfl
  · simp only [mkPagination, halloc, valWf, List.length_append,
      List.length_cons, List.length_nil, decide_eq_true_eq]
    omega

/-- The temp-cart default builder is wellbehaved. -/
theorem builderOk_mkTempCart : BuilderOk mkTempCart := by
  intro h
  refine ⟨⟨[PObj.list [], PObj.dict [("items", PVal.ref h.length)]], ?_⟩,
    fun hwf => ⟨?_, ?_⟩⟩
  · simp only [mkTempCart, halloc]
    rw [List.append_assoc]
    rfl
  · have hwf1 : heapWf (h ++ [PObj.list []]) = true :=
      heapWf_append h (PObj.list []) hwf rfl
    have hobj : objWf ((h ++ [PObj.list []]).length + 1)
        (PObj.dict [("items", PVal.ref h.length)]) = true := by
      simp only [objWf, List.all_cons, List.all_nil, Bool.and_true, valWf,
        List.length_append, List.length_cons, List.length_nil,
        decide_eq_true_eq]
      omega
    exact heapWf_append (h ++ [PObj.list []]) _ hwf1 hobj
  · simp only [mkTempCart, halloc, valWf, List.length_append,
      List.length_cons, List.length_nil, decide_eq_true_eq]
    omega

/-! ### Ensure lemmas -/

/-- One `setdefault` step: the session address is unchanged and stays a
dict, the heap stays wellformed and only grows, existing keys stay present,
and the stepped key is present afterwards. -/
theorem setdefault_inv (k : String) (mk : PyHeap → PyHeap × PVal)
    (hmk : BuilderOk mk) (h : PyHeap) (sa : ℕ) (es : List (String × PVal))
    (hwf : heapWf h = true) (hsa : hget h sa = some (PObj.dict es)) :
    ∃ h2 es2, setdefaultSection (h, sa) k mk = (h2, sa)
      ∧ heapWf h2 = true ∧ h.length ≤ h2.length
      ∧ hget h2 sa = some (PObj.dict es2)
      ∧ (∀ k2, (dget es k2).isSome = true → (dget es2 k2).isSome = true)
      ∧ (dget es2 k).isSome = true := by
  have hdg : hdictGet h sa k = dget es k := by
    unfold hdictGet
    rw [hsa]
  rcases hkey : hdictGet h sa k with _ | v
  · -- key missing: build the default and store it
    obtain ⟨t, hpre⟩ := (hmk h).1
    obtain ⟨hwf1, hval⟩ := (hmk h).2 hwf
    have hsalt : sa < h.length := hget_lt h sa _ hsa
    have hsa1 : hget (mk h).1 sa = some (PObj.dict es) := by
      rw [hpre, hget_append h t sa hsalt]
      exact hsa
    refine ⟨hdictSet (mk h).1 sa k (mk h).2, dset es k (mk h).2, ?_, ?_, ?_,
      ?_, ?_, ?_⟩
    · simp only [setdefaultSection, hkey]
    · exact heapWf_hdictSet _ sa k _ hwf1 hval
    · rw [length_hdictSet, hpre, List.length_append]
      omega
    · exact hget_hdictSet_self _ sa k _ es hsa1
    · intro k2 hk2
      exact dget_dset_isSome es k _ k2 hk2
    · rw [dget_dset_self]
      rfl
  · -- key present: nothing happens
    refine ⟨h, es, ?_, hwf, le_refl _, hsa, fun k2 hk2 => hk2, ?_⟩
    · simp only [setdefaultSection, hkey]
    · rw [hdg] at hkey
      rw [hkey]
      rfl

/-- The root step of `_ensure_session_dict` yields a wellformed grown heap
whose session address holds a dict. -/
theorem ensureRoot_inv (h : PyHeap) (st : ℕ) (es : List (String × PVal))
    (hwf : heapWf h = true) (hst : hget h st = some (PObj.dict es)) :
    ∃ h0 sa ses, ensureRoot h st es = (h0, sa)
      ∧ heapWf h0 = true ∧ h.length ≤ h0.length
      ∧ hget h0 sa = some (PObj.dict ses) := by
  have hstlt : st < h.length := hget_lt h st _ hst
  have hfresh : ∃ ses,
      hget (hdictSet (h ++ [PObj.dict []]) st SESSION_ROOT_KEY
        (PVal.ref h.length)) h.length = some (PObj.dict ses)
      ∧ heapWf (hdictSet (h ++ [PObj.dict []]) st SESSION_ROOT_KEY
          (PVal.ref h.length)) = true
      ∧ h.length ≤ (hdictSet (h ++ [PObj.dict []]) st SESSION_ROOT_KEY
          (PVal.ref h.length)).length := by
    have hwf1 : heapWf (h ++ [PObj.dict []]) = true :=
      heapWf_append h (PObj.dict []) hwf rfl
    have hval : valWf (h ++ [PObj.dict []]).length (PVal.ref h.length)
        = true := by
      simp only [valWf, List.length_append, List.length_cons, List.length_nil,
        decide_eq_true_eq]
      omega
    refine ⟨[], ?_, heapWf_hdictSet _ st SESSION_ROOT_KEY _ hwf1 hval, ?_⟩
    · rw [hget_hdictSet_ne _ st h.length SESSION_ROOT_KEY _ (by omega)]
      exact hget_append_self h (PObj.dict [])
    · rw [length_hdictSet, List.length_append]
      omega
  unfold ensureRoot
  rcases hroot : dget es SESSION_ROOT_KEY with _ | v
  · obtain ⟨ses, hg, hw, hl⟩ := hfresh
    exact ⟨_, _, ses, rfl, hw, hl, hg⟩
  · cases v with
    | ref a =>
      rcases hga : hget h a with _ | o
      · obtain ⟨ses, hg, hw, hl⟩ := hfresh
        simp only [hga]
        exact ⟨_, _, ses, rfl, hw, hl, hg⟩
      · cases o with
        | dict ses2 =>
          simp only [hga]
          exact ⟨h, a, ses2, rfl, hwf, le_refl _, hga⟩
        | list xs =>
          obtain ⟨ses, hg, hw, hl⟩ := hfresh
          simp only [hga]
          exact ⟨_, _, ses, rfl, hw, hl, hg⟩
    | s w =>
      obtain ⟨ses, hg, hw, hl⟩ := hfresh
      exact ⟨_, _, ses, rfl, hw, hl, hg⟩
    | i x =>
      obtain ⟨ses, hg, hw, hl⟩ := hfresh
      exact ⟨_, _, ses, rfl, hw, hl, hg⟩
    | f q =>
      obtain ⟨ses, hg, hw, hl⟩ := hfresh
      exact ⟨_, _, ses, rfl, hw, hl, hg⟩
    | none =>
      obtain ⟨ses, hg, hw, hl⟩ := hfresh
      exact ⟨_, _, ses, rfl, hw, hl, hg⟩

/-- `_ensure_session_dict` on a dict-rooted state: it succeeds, preserves
wellformedness, only grows the heap, and leaves a session dict in which all
seven fixed sections are present. -/
theorem ensure_inv (h : PyHeap) (st : ℕ) (es : List (String × PVal))
    (hwf : heapWf h = true) (hst : hget h st = some (PObj.dict es)) :
    ∃ h1 sa ses, ensureSessionDict h st = some (h1, sa)
      ∧ heapWf h1 = true ∧ h.length ≤ h1.length
      ∧ hget h1 sa = some (PObj.dict ses)
      ∧ ∀ k ∈ sessionSectionKeys, (dget ses k).isSome = true := by
  obtain ⟨h0, sa, ses0, e0, wf0, len0, g0⟩ := ensureRoot_inv h st es hwf hst
  obtain ⟨h1, es1, e1, wf1, len1, g1, mono1, has1⟩ :=
    setdefault_inv "current_search" mkEmptyDict builderOk_mkEmptyDict
      h0 sa ses0 wf0 g0
  obtain ⟨h2, es2, e2, wf2, len2, g2, mono2, has2⟩ :=
    setdefault_inv "pagination" mkPagination builderOk_mkPagination
      h1 sa es1 wf1 g1
  obtain ⟨h3, es3, e3, wf3, len3, g3, mono3, has3⟩ :=
    setdefault_inv "preferences" mkEmptyDict builderOk_mkEmptyDict
      h2 sa es2 wf2 g2
  obtain ⟨h4, es4, e4, wf4, len4, g4, mono4, has4⟩ :=
    setdefault_inv "context" mkEmptyDict builderOk_mkEmptyDict
      h3 sa es3 wf3 g3
  obtain ⟨h5, es5, e5, wf5, len5, g5, mono5, has5⟩ :=
    setdefault_inv "temp_cart" mkTempCart builderOk_mkTempCart
      h4 sa es4 wf4 g4
  obtain ⟨h6, es6, e6, wf6, len6, g6, mono6, has6⟩ :=
    setdefault_inv "timestamps" mkEmptyDict builderOk_mkEmptyDict
      h5 sa es5 wf5 g5
  obtain ⟨h7, es7, e7, wf7, len7, g7, mono7, has7⟩ :=
    setdefault_inv "artifacts" mkEmptyDict builderOk_mkEmptyDict
      h6 sa es6 wf6 g6
  refine ⟨h7, sa, es7, ?_, wf7, by omega, g7, ?_⟩
  · unfold ensureSessionDict
    simp only [hst]
    rw [e0, e1, e2, e3, e4, e5, e6, e7]
  · intro k hk
    simp only [sessionSectionKeys, List.mem_cons, List.not_mem_nil,
      or_false] at hk
    rcases hk with rfl | rfl | rfl | rfl | rfl | rfl | rfl
    · exact mono7 _ (mono6 _ (mono5 _ (mono4 _ (mono3 _ (mono2 _ has1)))))
    · exact mono7 _ (mono6 _ (mono5 _ (mono4 _ (mono3 _ has2))))
    · exact mono7 _ (mono6 _ (mono5 _ (mono4 _ has3)))
    · exact mono7 _ (mono6 _ (mono5 _ has4))
    · exact mono7 _ (mono6 _ has5)
    · exact mono7 _ has6
    · exact has7

/-- A successful `_ensure_session_dict` implies the state address held a
dict. -/
theorem ensure_some_root (h : PyHeap) (st : ℕ) (p : PyHeap × ℕ)
    (he : ensureSessionDict h st = some p) :
    ∃ es, hget h st = some (PObj.dict es) := by
  unfold ensureSessionDict at he
  rcases hh : hget h st with _ | o
  · rw [hh] at he
    cases he
  · cases o with
    | dict es => exact ⟨es, rfl⟩
    | list xs =>
      rw [hh] at he
      cases he

/-- A successful `_ensure_session_dict` on a wellformed heap yields a
wellformed, no-shorter heap. -/
theorem ensure_out (h : PyHeap) (st : ℕ) (h1 : PyHeap) (sa : ℕ)
    (hwf : heapWf h = true) (he : ensureSessionDict h st = some (h1, sa)) :
    heapWf h1 = true ∧ h.length ≤ h1.length := by
  obtain ⟨es, hst⟩ := ensure_some_root h st (h1, sa) he
  obtain ⟨h1', sa', ses, he', hwf', hlen', _, _⟩ :=
    ensure_inv h st es hwf hst
  rw [he] at he'
  injection he' with hp
  obtain ⟨rfl, rfl⟩ := Prod.mk.injEq .. |>.mp hp.symm
  exact ⟨hwf', hlen'⟩

/-! ### Snapshot frame lemmas -/

/-- Pointwise-equal maps. -/
theorem listMapCongr {α β : Type} {l : List α} {f g : α → β}
    (h : ∀ a ∈ l, f a = g a) : l.map f = l.map g := by
  induction l with
  | nil => rfl
  | cons a l ih =>
    simp only [List.map_cons]
    rw [h a (List.mem_cons_self a l), ih (fun b hb => h b (List.mem_cons_of_mem a hb))]

/-- Snapshots of in-range values ignore the object stored at the fresh
address: a wellformed heap cannot reach it. -/
theorem viewVal_frame (h : PyHeap) (hwf : heapWf h = true) :
    ∀ (fuel : ℕ) (x y : PObj) (v : PVal), valWf h.length v = true →
      viewVal fuel (h ++ [x]) v = viewVal fuel (h ++ [y]) v := by
  intro fuel
  induction fuel with
  | zero => intro x y v _; cases v <;> rfl
  | succ fuel ih =>
    intro x y v hv
    cases v with
    | s w => rfl
    | i n => rfl
    | f q => rfl
    | none => rfl
    | ref a =>
      have ha : a < h.length := by
        simpa [valWf] using hv
      simp only [viewVal]
      rw [hget_append h [x] a ha, hget_append h [y] a ha]
      rcases hga : hget h a with _ | o
      · rfl
      · have hobj : objWf h.length o = true := by
          simp only [heapWf, List.all_eq_true] at hwf
          exact hwf o (hget_mem h a o hga)
        cases o with
        | dict es =>
          simp only []
          congr 1
          refine listMapCongr ?_
          intro kv hkv
          have hkv2 : valWf h.length kv.2 = true := by
            simp only [objWf, List.all_eq_true] at hobj
            exact hobj kv hkv
          rw [ih x y kv.2 hkv2]
        | list xs =>
          simp only []
          congr 1
          refine listMapCongr ?_
          intro w hw
          have hw2 : valWf h.length w = true := by
            simp only [objWf, List.all_eq_true] at hobj
            exact hobj w hw
          exact ih x y w hw2

/-- Any getter that ensures the session and then returns one fresh
allocation is frame-safe. -/
theorem frameSafe_of_shape (g : PyHeap → ℕ → Option (PyHeap × ℕ))
    (hshape : ∀ h st h2 ret, g h st = some (h2, ret) →
      ∃ h1 sa obj, ensureSessionDict h st = some (h1, sa)
        ∧ h2 = h1 ++ [obj] ∧ ret = h1.length) :
    FrameSafe g := by
  intro h st h2 ret hwf hg mutObj fuel
  obtain ⟨h1, sa, obj, he, hh2, hret⟩ := hshape h st h2 ret hg
  obtain ⟨es, hst⟩ := ensure_some_root h st (h1, sa) he
  obtain ⟨hwf1, hlen1⟩ := ensure_out h st h1 sa hwf he
  have hstlt : st < h.length := hget_lt h st _ hst
  have hv : valWf h1.length (PVal.ref st) = true := by
    simp only [valWf, decide_eq_true_eq]
    omega
  rw [hh2, hret, hset_append_last]
  exact viewVal_frame h1 hwf1 fuel mutObj obj (PVal.ref st) hv

/-- `getSectionCopy` returns one fresh allocation after ensuring. -/
theorem getSectionCopy_shape (k : String) :
    ∀ (h : PyHeap) (st : ℕ) (h2 : PyHeap) (ret : ℕ),
      getSectionCopy k h st = some (h2, ret) →
      ∃ h1 sa obj, ensureSessionDict h st = some (h1, sa)
        ∧ h2 = h1 ++ [obj] ∧ ret = h1.length := by
  intro h st h2 ret hg
  unfold getSectionCopy at hg
  split at hg
  · cases hg
  · next h1 sa he =>
    split at hg
    · simp only [halloc, Option.some.injEq, Prod.mk.injEq] at hg
      exact ⟨h1, sa, PObj.dict [], he, hg.1.symm, hg.2.symm⟩
    · split at hg
      · next es hga =>
        simp only [halloc, Option.some.injEq, Prod.mk.injEq] at hg
        exact ⟨h1, sa, PObj.dict es, he, hg.1.symm, hg.2.symm⟩
      · cases hg
    · cases hg

/-- `get_cart_items` returns one fresh allocation after ensuring. -/
theorem get_cart_items_shape :
    ∀ (h : PyHeap) (st : ℕ) (h2 : PyHeap) (ret : ℕ),
      get_cart_items h st = some (h2, ret) →
      ∃ h1 sa obj, ensureSessionDict h st = some (h1, sa)
        ∧ h2 = h1 ++ [obj] ∧ ret = h1.length := by
  intro h st h2 ret hg
  unfold get_cart_items at hg
  split at hg
  · cases hg
  · next h1 sa he =>
    split at hg
    · simp only [halloc, Option.some.injEq, Prod.mk.injEq] at hg
      exact ⟨h1, sa, PObj.list [], he, hg.1.symm, hg.2.symm⟩
    · split at hg
      · next es hga =>
        split at hg
        · simp only [halloc, Option.some.injEq, Prod.mk.injEq] at hg
          exact ⟨h1, sa, PObj.list [], he, hg.1.symm, hg.2.symm⟩
        · split at hg
          · next xs hgl =>
            simp only [halloc, Option.some.injEq, Prod.mk.injEq] at hg
            exact ⟨h1, sa, PObj.list xs, he, hg.1.symm, hg.2.symm⟩
          · cases hg
        · cases hg
      · cases hg
    · cases hg

/-- `get_artifact_refs` returns one fresh allocation after ensuring. -/
theorem get_artifact_refs_shape (category : String) :
    ∀ (h : PyHeap) (st : ℕ) (h2 : PyHeap) (ret : ℕ),
      get_artifact_refs h st category = some (h2, ret) →
      ∃ h1 sa obj, ensureSessionDict h st = some (h1, sa)
        ∧ h2 = h1 ++ [obj] ∧ ret = h1.length := by
  intro h st h2 ret hg
  unfold get_artifact_refs at hg
  split at hg
  · cases hg
  · next h1 sa he =>
    split at hg
    · simp only [halloc, Option.some.injEq, Prod.mk.injEq] at hg
      exact ⟨h1, sa, PObj.list [], he, hg.1.symm, hg.2.symm⟩
    · split at hg
      · next es hga =>
        split at hg
        · simp only [halloc, Option.some.injEq, Prod.mk.injEq] at hg
          exact ⟨h1, sa, PObj.list [], he, hg.1.symm, hg.2.symm⟩
        · split at hg
          · next xs hgl =>
            simp only [halloc, Option.some.injEq, Prod.mk.injEq] at hg
            exact ⟨h1, sa, PObj.list xs, he, hg.1.symm, hg.2.symm⟩
          · cases hg
        · cases hg
      · cases hg
    · cases hg

/-! ### C10 -/

/-- C10: every session-state getter — current search, pagination,
preferences, conversation context, cart items, artifact refs — returns a
shallow copy at a fresh address: overwriting the returned object (adding,
removing or replacing top-level entries) leaves every snapshot of the stored
session state unchanged. -/
theorem c10_confirmed :
    FrameSafe get_current_search ∧ FrameSafe get_pagination
    ∧ FrameSafe get_preferences ∧ FrameSafe get_conversation_context
    ∧ FrameSafe get_cart_items
    ∧ ∀ category, FrameSafe (fun h st => get_artifact_refs h st category) :=
  ⟨frameSafe_of_shape _ (getSectionCopy_shape "current_search"),
   frameSafe_of_shape _ (getSectionCopy_shape "pagination"),
   frameSafe_of_shape _ (getSectionCopy_shape "preferences"),
   frameSafe_of_shape _ (getSectionCopy_shape "context"),
   frameSafe_of_shape _ get_cart_items_shape,
   fun category => frameSafe_of_shape _ (get_artifact_refs_shape category)⟩

/-- C10, instantiated: overwriting the dict returned by `get_pagination` on
a fresh state leaves the stored state's snapshot unchanged. -/
theorem c10_witness :
    viewVal 3 (hset
        (H1 ++ [PObj.dict [("page", PVal.i 1), ("page_size", PVal.i 10)]])
        10 (PObj.dict [("page", PVal.i 99)])) (PVal.ref 0)
      = viewVal 3
        (H1 ++ [PObj.dict [("page", PVal.i 1), ("page_size", PVal.i 10)]])
        (PVal.ref 0) :=
  c10_confirmed.2.1 [PObj.dict []] 0
    (H1 ++ [PObj.dict [("page", PVal.i 1), ("page_size", PVal.i 10)]]) 10
    (by decide) (by decide) (PObj.dict [("page", PVal.i 99)]) 3

/-! ### C9 -/

/-- Evaluation of `_ensure_session_dict` on the fresh one-dict state. -/
theorem ensure_fresh_eval : ensureSessionDict [PObj.dict []] 0 = some (H1, 1) := by
  decide

/-- Evaluation of `set_current_search` on the fresh state. -/
theorem set_current_search_eval (t : ℚ) :
    set_current_search [PObj.dict []] 0 "sữa vinamilk" Option.none
      Option.none t = some (H3 t) := by
  unfold set_current_search
  rw [ensure_fresh_eval]
  rfl

/-- `_ensure_session_dict` is a no-op on the post-search heap. -/
theorem ensure_H3_eval (t : ℚ) : ensureSessionDict (H3 t) 0 = some (H3 t, 1) := by
  rfl

/-- Evaluation of `get_pagination` on the post-search heap. -/
theorem get_pagination_H3_eval (t : ℚ) :
    get_pagination (H3 t) 0
      = some (H3 t
          ++ [PObj.dict [("page", PVal.i 1), ("page_size", PVal.i 10)]],
        12) := by
  unfold get_pagination getSectionCopy
  rw [ensure_H3_eval t]
  rfl

/-- C9: `set_current_search` on a fresh session state followed by
`get_pagination` returns the default page 1 / page size 10 without explicit
initialization; moreover `_ensure_session_dict` succeeds on every dict-rooted
state and afterwards all seven fixed section keys are present, so no getter
fails with a missing-key error. -/
theorem c9_confirmed :
    (∀ t : ℚ, ∃ h1,
      set_current_search [PObj.dict []] 0 "sữa vinamilk" Option.none
        Option.none t = some h1
      ∧ ∃ h2 r, get_pagination h1 0 = some (h2, r)
        ∧ hget h2 r = some (PObj.dict
            [("page", PVal.i 1), ("page_size", PVal.i 10)]))
    ∧ (∀ (h : PyHeap) (st : ℕ) (es : List (String × PVal)),
        hget h st = some (PObj.dict es) →
        (ensureSessionDict h st).isSome = true)
    ∧ (∀ (h : PyHeap) (st : ℕ) (h1 : PyHeap) (sa : ℕ),
        heapWf h = true → ensureSessionDict h st = some (h1, sa) →
        sessionSectionKeys.all (fun k => (hdictGet h1 sa k).isSome) = true) := by
  refine ⟨?_, ?_, ?_⟩
  · intro t
    exact ⟨H3 t, set_current_search_eval t, _, 12, get_pagination_H3_eval t,
      rfl⟩
  · intro h st es hst
    unfold ensureSessionDict
    simp only [hst]
    rfl
  · intro h st h1 sa hwf he
    obtain ⟨es, hst⟩ := ensure_some_root h st (h1, sa) he
    obtain ⟨h1', sa', ses, he', _, _, hget', hkeys⟩ :=
      ensure_inv h st es hwf hst
    rw [he] at he'
    injection he' with hp
    obtain ⟨rfl, rfl⟩ := Prod.mk.injEq .. |>.mp hp.symm
    simp only [List.all_eq_true]
    intro k hk
    have : hdictGet h1' sa' k = dget ses k := by
      unfold hdictGet
      rw [hget']
    rw [this]
    exact hkeys k hk

/-- C9, instantiated: ensuring succeeds on the fresh state and all seven
section keys are present afterwards. -/
theorem c9_witness :
    (ensureSessionDict [PObj.dict []] 0).isSome = true
    ∧ sessionSectionKeys.all (fun k => (hdictGet H1 1 k).isSome) = true :=
  ⟨c9_confirmed.2.1 [PObj.dict []] 0 [] rfl,
   c9_confirmed.2.2 [PObj.dict []] 0 H1 1 (by decide) (by decide)⟩

/-! ### Binary64 evaluation lemmas for C8 -/

/-- Pinning `Int.log 2` by its characteristic inequalities. -/
theorem int_log_eval (x : ℚ) (e : ℤ) (hx : 0 < x)
    (h1 : (2:ℚ) ^ e ≤ x) (h2 : x < (2:ℚ) ^ (e + 1)) : Int.log 2 x = e := by
  have hb : 1 < (2:ℕ) := by norm_num
  have hle : e ≤ Int.log 2 x := by
    rw [← Int.zpow_le_iff_le_log hb hx]
    exact_mod_cast h1
  have hlt : Int.log 2 x < e + 1 := by
    rw [← Int.lt_zpow_iff_log_lt hb hx]
    exact_mod_cast h2
  omega

/-- Rounding below the halfway point goes down. -/
theorem rne_eq_floor (q : ℚ) (f : ℤ) (hf : ⌊q⌋ = f) (h : q - f < 1/2) :
    rne q = f := by
  unfold rne
  rw [hf, if_pos h]

/-- Rounding above the halfway point goes up. -/
theorem rne_eq_ceil (q : ℚ) (f : ℤ) (hf : ⌊q⌋ = f) (h : 1/2 < q - f) :
    rne q = f + 1 := by
  unfold rne
  rw [hf, if_neg (by exact lt_asymm h), if_pos h]

/-- An exact halfway value rounds to the even neighbour. -/
theorem rne_tie_even (q : ℚ) (f : ℤ) (hf : ⌊q⌋ = f) (h : q - f = 1/2)
    (he : f % 2 = 0) : rne q = f := by
  unfold rne
  rw [hf, h]
  norm_num [he]

/-- Evaluating `fl64` from its binade and rounded significand. -/
theorem fl64_eval (x : ℚ) (e m : ℤ) (hx : 0 < x) (hlog : Int.log 2 x = e)
    (hrne : rne (x * 2 ^ ((52 : ℤ) - e)) = m) :
    fl64 x = (m : ℚ) * 2 ^ (e - 52) := by
  unfold fl64
  rw [if_neg (ne_of_gt hx), if_pos hx, hlog, hrne]

/-- The Python literal `0.3` denotes `5404319552844595·2⁻⁵⁴`, slightly below
3/10. -/
theorem ewmaAlpha64_eval :
    ewmaAlpha64 = 5404319552844595/18014398509481984 := by
  unfold ewmaAlpha64
  have h := fl64_eval (3/10) (-2) 5404319552844595 (by norm_num)
    (int_log_eval (3/10) (-2) (by norm_num) (by norm_num) (by norm_num))
    (by
      have hq : (3/10 : ℚ) * 2 ^ ((52 : ℤ) - (-2)) = 27021597764222976/5 := by
        norm_num
      rw [hq]
      refine rne_eq_floor _ 5404319552844595 ?_ (by norm_num)
      rw [Int.floor_eq_iff]
      constructor <;> norm_num)
  rw [h]
  norm_num

/-- `1 - 0.3` in binary64: the subtraction ties and rounds to even, giving
exactly the double `0.7`. -/
theorem ewmaOneMinusAlpha64_eval :
    fl64 (1 - ewmaAlpha64) = 6305039478318694/9007199254740992 := by
  rw [ewmaAlpha64_eval]
  have hx : (1 : ℚ) - 5404319552844595/18014398509481984
      = 12610078956637389/18014398509481984 := by norm_num
  rw [hx]
  have h := fl64_eval (12610078956637389/18014398509481984) (-1)
    6305039478318694 (by norm_num)
    (int_log_eval _ (-1) (by norm_num) (by norm_num) (by norm_num))
    (by
      have hq : (12610078956637389/18014398509481984 : ℚ)
          * 2 ^ ((52 : ℤ) - (-1)) = 12610078956637389/2 := by norm_num
      rw [hq]
      refine rne_tie_even _ 6305039478318694 ?_ (by norm_num) (by norm_num)
      rw [Int.floor_eq_iff]
      constructor <;> norm_num)
  rw [h]
  norm_num

/-- `0.3 * 4.0` is exact in binary64 (scaling by a power of two). -/
theorem ewmaBlend_left_eval :
    fl64 (ewmaAlpha64 * 4) = 5404319552844595/4503599627370496 := by
  rw [ewmaAlpha64_eval]
  have hx : (5404319552844595/18014398509481984 : ℚ) * 4
      = 5404319552844595/4503599627370496 := by norm_num
  rw [hx]
  have h := fl64_eval (5404319552844595/4503599627370496) 0
    5404319552844595 (by norm_num)
    (int_log_eval _ 0 (by norm_num) (by norm_num) (by norm_num))
    (by
      have hq : (5404319552844595/4503599627370496 : ℚ)
          * 2 ^ ((52 : ℤ) - 0) = 5404319552844595 := by norm_num
      rw [hq]
      refine rne_eq_floor _ 5404319552844595 ?_ (by norm_num)
      rw [Int.floor_eq_iff]
      constructor <;> norm_num)
  rw [h]
  norm_num

/-- `(1 - 0.3) * 2.0` is exact in binary64 (scaling by a power of two). -/
theorem ewmaBlend_right_eval :
    fl64 (fl64 (1 - ewmaAlpha64) * 2)
      = 3152519739159347/2251799813685248 := by
  rw [ewmaOneMinusAlpha64_eval]
  have hx : (6305039478318694/9007199254740992 : ℚ) * 2
      = 3152519739159347/2251799813685248 := by norm_num
  rw [hx]
  have h := fl64_eval (3152519739159347/2251799813685248) 0
    6305039478318694 (by norm_num)
    (int_log_eval _ 0 (by norm_num) (by norm_num) (by norm_num))
    (by
      have hq : (3152519739159347/2251799813685248 : ℚ)
          * 2 ^ ((52 : ℤ) - 0) = 6305039478318694 := by norm_num
      rw [hq]
      refine rne_eq_floor _ 6305039478318694 ?_ (by norm_num)
      rw [Int.floor_eq_iff]
      constructor <;> norm_num)
  rw [h]
  norm_num

/-- The final addition ties and rounds to even: the blended EWMA is
`5854679515581644·2⁻⁵¹ ≈ 2.5999999999999996`, one ulp below the double
`2.6`. -/
theorem ewmaBlend_sum_eval :
    fl64 (fl64 (ewmaAlpha64 * 4) + fl64 (fl64 (1 - ewmaAlpha64) * 2))
      = 5854679515581644/2251799813685248 := by
  rw [ewmaBlend_left_eval, ewmaBlend_right_eval]
  have hx : (5404319552844595/4503599627370496 : ℚ)
      + 3152519739159347/2251799813685248
      = 11709359031163289/4503599627370496 := by norm_num
  rw [hx]
  have h := fl64_eval (11709359031163289/4503599627370496) 1
    5854679515581644 (by norm_num)
    (int_log_eval _ 1 (by norm_num) (by norm_num) (by norm_num))
    (by
      have hq : (11709359031163289/4503599627370496 : ℚ)
          * 2 ^ ((52 : ℤ) - 1) = 11709359031163289/2 := by norm_num
      rw [hq]
      refine rne_tie_even _ 5854679515581644 ?_ (by norm_num) (by norm_num)
      rw [Int.floor_eq_iff]
      constructor <;> norm_num)
  rw [h]
  norm_num

/-- The Python literal `2.6` denotes `5854679515581645·2⁻⁵¹`, slightly above
13/5. -/
theorem fl64_26_eval : fl64 (13/5) = 5854679515581645/2251799813685248 := by
  have h := fl64_eval (13/5) 1 5854679515581645 (by norm_num)
    (int_log_eval _ 1 (by norm_num) (by norm_num) (by norm_num))
    (by
      have hq : (13/5 : ℚ) * 2 ^ ((52 : ℤ) - 1) = 29273397577908224/5 := by
        norm_num
      rw [hq]
      have hc := rne_eq_ceil (29273397577908224/5) 5854679515581644
        (by rw [Int.floor_eq_iff]; constructor <;> norm_num) (by norm_num)
      rw [hc]
      norm_num)
  rw [h]
  norm_num

/-! ### C8 -/

/-- C8 counterexample: in the program's binary64 arithmetic,
`update(2.0); update(4.0)` yields `ewma = 5854679515581644·2⁻⁵¹ =
2.5999999999999996…`, which equals neither the exact 2.6 = 13/5 nor the
double that the literal `2.6` denotes — the claimed equality
`ewma == 0.3·4.0 + 0.7·2.0 == 2.6` is false in the code. -/
theorem c8_counterexample :
    updateEwmaLatency64
        (updateEwmaLatency64 (LatencyStatState.mk Option.none 0) 2) 4
      = LatencyStatState.mk (some (5854679515581644/2251799813685248)) 2
    ∧ (5854679515581644/2251799813685248 : ℚ) ≠ 13/5
    ∧ (5854679515581644/2251799813685248 : ℚ) ≠ fl64 (13/5) := by
  refine ⟨?_, by norm_num, ?_⟩
  · simp only [updateEwmaLatency64]
    rw [ewmaBlend_sum_eval]
  · rw [fl64_26_eval]
    norm_num

/-- C8 amended: `update` seeds the EWMA with the elapsed value on the first
call and on later calls stores the IEEE binary64 evaluation of
`0.3·elapsed + (1 − 0.3)·ewma`, incrementing the sample count each call;
concretely `update(2.0); update(4.0)` gives `sample_count = 2` and
`ewma = 5854679515581644·2⁻⁵¹ ≈ 2.5999999999999996` — within one ulp of 2.6
but not equal to it. -/
theorem c8_amended :
    (∀ (e : ℚ) (n : ℕ),
      updateEwmaLatency64 (LatencyStatState.mk Option.none n) e
        = LatencyStatState.mk (some e) (n + 1))
    ∧ (∀ (e w : ℚ) (n : ℕ),
      updateEwmaLatency64 (LatencyStatState.mk (some w) n) e
        = LatencyStatState.mk
            (some (fl64 (fl64 (ewmaAlpha64 * e)
              + fl64 (fl64 (1 - ewmaAlpha64) * w)))) (n + 1))
    ∧ ewmaAlpha64 = 5404319552844595/18014398509481984
    ∧ updateEwmaLatency64
        (updateEwmaLatency64 (LatencyStatState.mk Option.none 0) 2) 4
      = LatencyStatState.mk (some (5854679515581644/2251799813685248)) 2
    ∧ (2.6 : ℚ) = 13/5
    ∧ (13/5 : ℚ) - 5854679515581644/2251799813685248
      = 1/2814749767106560 := by
  refine ⟨fun e n => rfl, fun e w n => rfl, ewmaAlpha64_eval, ?_,
    by norm_num, by norm_num⟩
  simp only [updateEwmaLatency64]
  rw [ewmaBlend_sum_eval]
